import Mathlib

/-! Score Tracker (src/src/App.js): a shallow embedding of the App component

The React component keeps its whole state in hooks: `teams`, `eliminated`,
`name`, `lastEliminated`, `undoVisible` (all `useState`) and `undoTimerRef`
(`useRef`).  Every event handler is modelled as a pure function from the
state before the event to the state after it, the functional updaters being
applied in the order in which they are queued.  The clock (`Date.now()`),
the text of the random draw (`Math.random().toString(36)`) and the answer
of `window.confirm` are explicit arguments.
-/

namespace ScoreTracker

/-! ## Data model -/

/-- A team record `{ id, name, score }` as built in `addTeam`; the score is
an integer-valued JavaScript number. -/
structure Team where
  id : String
  name : String
  score : Int
deriving DecidableEq, Repr

/-- The hooks of `App`: `undoTimerRef` is `none` for `null`, and `some d` for
a pending timeout that fires at time `d` (milliseconds). -/
structure State where
  teams : List Team
  eliminated : List Team
  name : String
  lastEliminated : Option Team
  undoTimerRef : Option Nat
  undoVisible : Bool
deriving DecidableEq, Repr

/-- The state of a first render with nothing in `localStorage`. -/
def init : State :=
  { teams := [], eliminated := [], name := "", lastEliminated := none,
    undoTimerRef := none, undoVisible := false }

/-! ## String helpers used by `addTeam` -/

/-- The code points removed by `String.prototype.trim`: ECMAScript
`WhiteSpace` and `LineTerminator`. -/
def isWhiteSpace (c : Char) : Bool :=
  let n := c.toNat
  n == 0x9 || n == 0xA || n == 0xB || n == 0xC || n == 0xD || n == 0x20 ||
  n == 0xA0 || n == 0x1680 || (0x2000 ≤ n && n ≤ 0x200A) || n == 0x2028 ||
  n == 0x2029 || n == 0x202F || n == 0x205F || n == 0x3000 || n == 0xFEFF

/-- Strip leading and trailing white space from a list of characters. -/
def trimChars (cs : List Char) : List Char :=
  ((cs.dropWhile isWhiteSpace).reverse.dropWhile isWhiteSpace).reverse

/-- The method `name.trim()`. -/
def trim (s : String) : String := ⟨trimChars s.data⟩

/-- One base-36 digit, `0-9` then `a-z`. -/
def digitChar36 (d : Nat) : Char :=
  if d < 10 then Char.ofNat (48 + d) else Char.ofNat (87 + d)

/-- Digits of `n` in base 36, most significant first, prepended to `acc`. -/
def toDigits36 : Nat → Nat → List Char → List Char
  | 0, _, acc => acc
  | fuel + 1, n, acc =>
    if n < 36 then digitChar36 n :: acc
    else toDigits36 fuel (n / 36) (digitChar36 (n % 36) :: acc)

/-- The call `n.toString(36)` for a non-negative integer `n`. -/
def toString36 (n : Nat) : String := ⟨toDigits36 (n + 1) n []⟩

/-- The call `s.slice(a, b)` for `0 ≤ a ≤ b`. -/
def slice (s : String) (a b : Nat) : String := ⟨(s.data.drop a).take (b - a)⟩

/-- The id built in `addTeam`:
`Date.now().toString(36) + Math.random().toString(36).slice(2, 6)`, where
`now` is the clock and `rnd` the text `Math.random().toString(36)`. -/
def genId (now : Nat) (rnd : String) : String :=
  toString36 now ++ slice rnd 2 6

/-! ## Event handlers -/

/-- The input's `onChange`: `setName(e.target.value)`. -/
def setName (s : State) (v : String) : State := { s with name := v }

/-- The handler `addTeam` (form submit). -/
def addTeam (s : State) (now : Nat) (rnd : String) : State :=
  let trimmed := trim s.name
  if trimmed = "" then s
  else
    let id := genId now rnd
    { s with teams := s.teams ++ [{ id := id, name := trimmed, score := 0 }], name := "" }

/-- The number of low bits that a natural number loses when it is stored
as a double: the least `e` with `m / 2 ^ e < 2 ^ 53` (`fuel` bounds the
search and is given as `m`). -/
def droppedBits : Nat → Nat → Nat
  | 0, _ => 0
  | fuel + 1, m => if m < 2 ^ 53 then 0 else droppedBits fuel (m / 2) + 1

/-- The double nearest to a natural number, ties going to the even
significand (IEEE 754 round-to-nearest-even, 53-bit significand). -/
def toDoubleNat (m : Nat) : Nat :=
  let e := droppedBits m m
  if e = 0 then m
  else
    let q := m / 2 ^ e
    let r := m % 2 ^ e
    let half := 2 ^ (e - 1)
    let q' := if r < half then q else if half < r then q + 1 else if q % 2 = 0 then q else q + 1
    q' * 2 ^ e

/-- The double nearest to an integer. Integers of magnitude 2 ^ 1024 and
more, for which JavaScript gives `Infinity`, are outside the model. -/
def toDouble (n : Int) : Int :=
  if n < 0 then -((toDoubleNat n.natAbs : Nat) : Int) else ((toDoubleNat n.natAbs : Nat) : Int)

/-- The JavaScript `a + b` of two integer-valued numbers: the exact sum
rounded to a double. -/
def jsAdd (a b : Int) : Int := toDouble (a + b)

/-- The handler `changeScore`. -/
def changeScore (s : State) (id : String) (delta : Int) : State :=
  { s with
    teams := s.teams.map (fun t => if t.id = id then { t with score := jsAdd t.score delta } else t) }

/-- The handler `eliminateTeam`; `now` is the time at which `setTimeout` is
called, so the new timer fires at `now + 8000`. -/
def eliminateTeam (s : State) (id : String) (now : Nat) : State :=
  match s.teams.find? (fun t => t.id == id) with
  | none => s
  | some team =>
    let nextTeams := s.teams.filter (fun t => t.id != id)
    if s.eliminated.any (fun e => e.id == id) then
      { s with teams := nextTeams }
    else
      { s with
        teams := nextTeams
        eliminated := s.eliminated ++ [team]
        lastEliminated := some team
        undoVisible := true
        undoTimerRef := some (now + 8000) }

/-- The callback given to `setTimeout` in `eliminateTeam`; it runs only
while its timer is still pending. -/
def undoTimeout (s : State) : State :=
  match s.undoTimerRef with
  | none => s
  | some _ => { s with lastEliminated := none, undoVisible := false, undoTimerRef := none }

/-- The handler `undoElimination`. -/
def undoElimination (s : State) : State :=
  match s.lastEliminated with
  | none => s
  | some t =>
    { s with
      eliminated := s.eliminated.filter (fun x => x.id != t.id)
      teams := if s.teams.any (fun p => p.id == t.id) then s.teams else s.teams ++ [t]
      lastEliminated := none
      undoVisible := false
      undoTimerRef := none }

/-- The handler `restoreEliminated`. -/
def restoreEliminated (s : State) (id : String) : State :=
  match s.eliminated.find? (fun t => t.id == id) with
  | none => s
  | some team =>
    { s with
      eliminated := s.eliminated.filter (fun t => t.id != id)
      teams := if s.teams.any (fun p => p.id == team.id) then s.teams else s.teams ++ [team]
      lastEliminated :=
        match s.lastEliminated with
        | some prevLast => if prevLast.id = id then none else some prevLast
        | none => none
      undoTimerRef := none
      undoVisible := false }

/-- The handler `resetAll`; `ok` is the answer of `window.confirm`. -/
def resetAll (s : State) (ok : Bool) : State :=
  if ok then
    { s with teams := [], eliminated := [], lastEliminated := none,
             undoVisible := false, undoTimerRef := none }
  else s

/-! ## Sequences of events -/

/-- The events the component reacts to. -/
inductive Op where
  | setName (v : String)
  | addTeam (now : Nat) (rnd : String)
  | changeScore (id : String) (delta : Int)
  | eliminateTeam (id : String) (now : Nat)
  | undoElimination
  | restoreEliminated (id : String)
  | resetAll (ok : Bool)
  | undoTimeout
deriving DecidableEq, Repr

/-- One event applied to a state. -/
def step (s : State) : Op → State
  | .setName v => setName s v
  | .addTeam now rnd => addTeam s now rnd
  | .changeScore id delta => changeScore s id delta
  | .eliminateTeam id now => eliminateTeam s id now
  | .undoElimination => undoElimination s
  | .restoreEliminated id => restoreEliminated s id
  | .resetAll ok => resetAll s ok
  | .undoTimeout => undoTimeout s

/-- A sequence of events applied from left to right. -/
def run (s : State) : List Op → State
  | [] => s
  | op :: ops => run (step s op) ops

/-- The ids of a list of teams. -/
def ids (l : List Team) : List String := l.map (fun t => t.id)

/-- An event is fresh in a state unless it is an `addTeam` that inserts a
team whose id is already carried by an active or an eliminated team. -/
def freshOp (s : State) : Op → Bool
  | .addTeam now rnd =>
    trim s.name == "" ||
      (!(ids s.teams).contains (genId now rnd) && !(ids s.eliminated).contains (genId now rnd))
  | _ => true

/-- Every event of the sequence is fresh in the state it is applied to. -/
def freshRun (s : State) : List Op → Bool
  | [] => true
  | op :: ops => freshOp s op && freshRun (step s op) ops

/-- The operation AddTeam(name): type `name` in the input, then submit. -/
def addTeamNamed (s : State) (name : String) (now : Nat) (rnd : String) : State :=
  addTeam (setName s name) now rnd

/-! ## Invariants, sample runs and the decoder of base-36 text -/

/-- No id is carried both by an active and by an eliminated team. -/
def DisjointIds (s : State) : Prop :=
  ∀ t ∈ s.teams, ∀ e ∈ s.eliminated, t.id ≠ e.id

/-- The undo slot, when filled, holds a team of the eliminated list. -/
def SlotBacked (s : State) : Prop :=
  ∀ t, s.lastEliminated = some t → t ∈ s.eliminated

/-- A run that adds two teams and eliminates the first one. -/
def sampleOps : List Op :=
  [.setName "Alpha", .addTeam 1000 "0.abcdefg", .setName "Beta", .addTeam 1001 "0.hijklmn",
   .changeScore "rsabcd" 5, .eliminateTeam "rsabcd" 2000]

/-- Two teams created in the same millisecond with the same random draw:
both get the id "rsabcd". -/
def dupState : State :=
  run init [.setName "Xray", .addTeam 1000 "0.abcdefg", .setName "Yankee",
            .addTeam 1000 "0.abcdefg"]

/-- Two teams are added and eliminated one after the other, then the first
one is restored with its Restore button. -/
def staleUndoOps : List Op :=
  [.setName "Alpha", .addTeam 1000 "0.abcdefg", .setName "Beta", .addTeam 1001 "0.hijklmn",
   .eliminateTeam "rsabcd" 2000, .eliminateTeam "rthijk" 3000, .restoreEliminated "rsabcd"]

/-- The value of a base-36 digit character. -/
def charVal (c : Char) : Nat :=
  if c.toNat < 58 then c.toNat - 48 else c.toNat - 87

/-- The number written by a list of base-36 digits. -/
def decode36 (cs : List Char) : Nat :=
  cs.foldl (fun a c => a * 36 + charVal c) 0

/-- The state after one team has been added at clock 1000 with the random
text "0.abcdefg". -/
def oneTeamState : State :=
  run init [.setName "Xray", .addTeam 1000 "0.abcdefg"]

/-! ## Rendering: display order and top-scorer flag -/

/-- The comparator given to `sort`:
`b.score - a.score || a.name.localeCompare(b.name)`, with the collation
`localeCompare` of the host as an argument. -/
def compareTeams (localeCompare : String → String → Int) (a b : Team) : Int :=
  if b.score - a.score ≠ 0 then b.score - a.score else localeCompare a.name b.name

/-- The call `teams.slice().sort(cmp)`: `slice` copies the list, and `sort`
is a stable sort that puts `a` before `b` when `cmp a b ≤ 0`. -/
def sliceSort (cmp : Team → Team → Int) (teams : List Team) : List Team :=
  teams.insertionSort (fun a b => cmp a b ≤ 0)

/-- The active teams in the order in which the render shows them. -/
def displayedTeams (localeCompare : String → String → Int) (teams : List Team) : List Team :=
  sliceSort (compareTeams localeCompare) teams

/-- A collation for sample runs: names are compared as lists of code points. -/
def codePointCompare (a b : String) : Int :=
  if a.data < b.data then -1 else if a.data = b.data then 0 else 1

/-- The call `Math.max(max, x)` where `none` stands for
`Number.NEGATIVE_INFINITY`. -/
def mathMax : Option Int → Int → Option Int
  | none, x => some x
  | some m, x => some (max m x)

/-- The derived value `topScore`:
`teams.reduce((max, t) => Math.max(max, t.score), Number.NEGATIVE_INFINITY)`. -/
def topScore (teams : List Team) : Option Int :=
  teams.foldl (fun m t => mathMax m t.score) none

/-- The test `team.score === topScore` that sets the class
`top-team-wrapper`. -/
def isTopTeam (teams : List Team) (team : Team) : Bool :=
  topScore teams == some team.score

/-! ## Persistence -/

/-- The key under which the active list is stored. -/
def teamsKey : String := "score-tracker:teams"

/-- The key under which the eliminated list is stored. -/
def eliminatedKey : String := "score-tracker:eliminated"

/-- A call on `localStorage`. -/
inductive StoreCall where
  | setItem (key value : String)
  | removeItem (key : String)
deriving DecidableEq, Repr

/-- The content of `localStorage`: keys with their text, one entry a key. -/
abbrev Store := List (String × String)

/-- The effect of one call on the content of `localStorage`. -/
def storeApply (st : Store) : StoreCall → Store
  | .setItem key value => (key, value) :: st.filter (fun kv => kv.1 != key)
  | .removeItem key => st.filter (fun kv => kv.1 != key)

/-- The calls on `localStorage` made by the handler `resetAll`, in order;
`ok` is the answer of `window.confirm`. -/
def resetAllCalls (ok : Bool) : List StoreCall :=
  if ok then [.removeItem teamsKey, .removeItem eliminatedKey] else []

/-- The content of `localStorage` when the handler `resetAll` returns. -/
def resetAllStore (st : Store) (ok : Bool) : Store :=
  (resetAllCalls ok).foldl storeApply st

/-- A state in which the active team and the eliminated team carry the same
id: the second team was added at the clock value and with the random draw
of the first one, after the first one had been eliminated. -/
def collidedState : State :=
  run init [.setName "Xray", .addTeam 1000 "0.abcdefg", .eliminateTeam "rsabcd" 2000,
            .setName "Yankee", .addTeam 1000 "0.abcdefg"]

/-! ## Counting teams -/

/-- The (id, name) pairs of all teams, the active ones first. -/
def pairs (s : State) : List (String × String) :=
  (s.teams ++ s.eliminated).map (fun t => (t.id, t.name))

/-- The number of teams, active and eliminated together. -/
def total (s : State) : Nat := s.teams.length + s.eliminated.length

/-! ## Loading the collections -/

/-- A value returned by `JSON.parse`; numbers are restricted to integers. -/
inductive Json where
  | null
  | bool (b : Bool)
  | num (n : Int)
  | str (s : String)
  | arr (items : List Json)
  | obj (fields : List (String × Json))

/-- What a `useState` initialiser meets when it reads its key:
`localStorage.getItem` throws, or returns `null`, or returns the text `raw`;
in the last case `parsed` is the outcome of `JSON.parse(raw)`, `none` when
it throws. -/
inductive Stored where
  | getItemThrows
  | absent
  | text (raw : String) (parsed : Option Json)

/-- The initialiser of `teams` and of `eliminated`:
`try { raw = getItem(key); return raw ? JSON.parse(raw) : [] } catch { return [] }`. -/
def loadCollection : Stored → Json
  | .getItemThrows => .arr []
  | .absent => .arr []
  | .text raw parsed =>
    if raw = "" then .arr []
    else
      match parsed with
      | none => .arr []
      | some v => v

/-- The team record held by a parsed value, if it is one: an object with a
text `id`, a text `name` and a number `score`. -/
def asTeam : Json → Option Team
  | .obj fields =>
    match fields.lookup "id", fields.lookup "name", fields.lookup "score" with
    | some (.str id), some (.str name), some (.num score) =>
      some { id := id, name := name, score := score }
    | _, _, _ => none
  | _ => none

/-- The teams held by a list of parsed values, if each is a team record. -/
def asTeamList : List Json → Option (List Team)
  | [] => some []
  | j :: js =>
    match asTeam j, asTeamList js with
    | some t, some ts => some (t :: ts)
    | _, _ => none

/-- The list of teams held by a parsed value, if it is an array of team
records. -/
def asTeams : Json → Option (List Team)
  | .arr items => asTeamList items
  | _ => none

/-- The value to which the text written by `JSON.stringify(team)` parses. -/
def teamJson (t : Team) : Json :=
  .obj [("id", .str t.id), ("name", .str t.name), ("score", .num t.score)]

/-- A first render that loads one active team with score 2 ^ 53 from
`localStorage`. -/
def storedBigScore : State :=
  { init with teams := [{ id := "rsabcd", name := "Xray", score := 9007199254740992 }] }

/-! # Theorems -/

/-! ## Invariants -/

theorem find_id_spec {l : List Team} {id : String} {team : Team}
    (h : l.find? (fun t => t.id == id) = some team) : team ∈ l ∧ team.id = id := by
  refine ⟨List.mem_of_find?_eq_some h, ?_⟩
  have := List.find?_some h
  simpa using this

theorem disjoint_addTeam {s : State} (now : Nat) (rnd : String) (h : DisjointIds s)
    (hf : freshOp s (.addTeam now rnd) = true) : DisjointIds (addTeam s now rnd) := by
  unfold addTeam
  by_cases hb : trim s.name = ""
  · simpa [hb] using h
  · simp only [hb, if_false]
    intro t ht e he
    simp only [List.mem_append, List.mem_singleton] at ht
    rcases ht with ht | rfl
    · exact h t ht e he
    · simp only [freshOp, ids, Bool.or_eq_true, beq_iff_eq, hb, false_or, Bool.and_eq_true,
        Bool.not_eq_true', List.contains_eq_any_beq, List.any_eq_false, List.mem_map] at hf
      intro heq
      exact hf.2 (genId now rnd) ⟨e, he, heq.symm⟩ (by simp)

theorem disjoint_changeScore {s : State} (id : String) (delta : Int) (h : DisjointIds s) :
    DisjointIds (changeScore s id delta) := by
  intro t ht e he
  simp only [changeScore, List.mem_map] at ht he
  obtain ⟨u, hu, rfl⟩ := ht
  have := h u hu e he
  split <;> simpa using this

theorem disjoint_eliminateTeam {s : State} (id : String) (now : Nat) (h : DisjointIds s) :
    DisjointIds (eliminateTeam s id now) := by
  unfold eliminateTeam
  split
  · exact h
  · rename_i team hfind
    obtain ⟨_, hid⟩ := find_id_spec hfind
    split
    · intro t ht e he
      simp only [List.mem_filter] at ht
      exact h t ht.1 e he
    · intro t ht e he
      simp only [List.mem_filter, bne_iff_ne, ne_eq] at ht
      simp only [List.mem_append, List.mem_singleton] at he
      rcases he with he | rfl
      · exact h t ht.1 e he
      · rw [hid]; exact ht.2

theorem disjoint_undoElimination {s : State} (h : DisjointIds s) :
    DisjointIds (undoElimination s) := by
  unfold undoElimination
  split
  · exact h
  · rename_i u _
    intro t ht e he
    simp only [List.mem_filter, bne_iff_ne, ne_eq] at he
    by_cases hany : s.teams.any (fun p => p.id == u.id) = true
    · simp only [hany, if_true] at ht
      exact h t ht e he.1
    · rw [Bool.not_eq_true] at hany
      simp only [hany, Bool.false_eq_true, if_false, List.mem_append, List.mem_singleton] at ht
      rcases ht with ht | rfl
      · exact h t ht e he.1
      · exact fun heq => he.2 heq.symm

theorem disjoint_restoreEliminated {s : State} (id : String) (h : DisjointIds s) :
    DisjointIds (restoreEliminated s id) := by
  unfold restoreEliminated
  split
  · exact h
  · rename_i team hfind
    obtain ⟨_, hid⟩ := find_id_spec hfind
    intro t ht e he
    simp only [List.mem_filter, bne_iff_ne, ne_eq] at he
    by_cases hany : s.teams.any (fun p => p.id == team.id) = true
    · simp only [hany, if_true] at ht
      exact h t ht e he.1
    · rw [Bool.not_eq_true] at hany
      simp only [hany, Bool.false_eq_true, if_false, List.mem_append, List.mem_singleton] at ht
      rcases ht with ht | rfl
      · exact h t ht e he.1
      · rw [hid]; exact fun heq => he.2 heq.symm

theorem disjoint_resetAll {s : State} (ok : Bool) (h : DisjointIds s) :
    DisjointIds (resetAll s ok) := by
  cases ok
  · exact h
  · intro t ht; simp [resetAll] at ht

theorem disjoint_undoTimeout {s : State} (h : DisjointIds s) : DisjointIds (undoTimeout s) := by
  unfold undoTimeout
  split <;> exact h

theorem disjoint_step {s : State} (op : Op) (h : DisjointIds s) (hf : freshOp s op = true) :
    DisjointIds (step s op) := by
  cases op with
  | setName v => exact h
  | addTeam now rnd => exact disjoint_addTeam now rnd h hf
  | changeScore id delta => exact disjoint_changeScore id delta h
  | eliminateTeam id now => exact disjoint_eliminateTeam id now h
  | undoElimination => exact disjoint_undoElimination h
  | restoreEliminated id => exact disjoint_restoreEliminated id h
  | resetAll ok => exact disjoint_resetAll ok h
  | undoTimeout => exact disjoint_undoTimeout h

theorem disjoint_run (ops : List Op) : ∀ s : State, DisjointIds s → freshRun s ops = true →
    DisjointIds (run s ops) := by
  induction ops with
  | nil => intro s h _; exact h
  | cons op ops ih =>
    intro s h hf
    simp only [freshRun, Bool.and_eq_true] at hf
    exact ih (step s op) (disjoint_step op h hf.1) hf.2

theorem disjoint_init : DisjointIds init := by
  intro t ht; simp [init] at ht

/-- C1: starting from the empty state, after every finite sequence of events
in which each AddTeam inserts an id carried by no active and no eliminated
team, no id occurs both in the active list and in the eliminated list. -/
theorem C1_disjoint_reachable (ops : List Op) (hfresh : freshRun init ops = true) :
    ∀ t ∈ (run init ops).teams, ∀ e ∈ (run init ops).eliminated, t.id ≠ e.id :=
  disjoint_run ops init disjoint_init hfresh

theorem C1_disjoint_reachable_witness :
    freshRun init sampleOps = true ∧
    (run init sampleOps).teams = [⟨"rthijk", "Beta", 0⟩] ∧
    (run init sampleOps).eliminated = [⟨"rsabcd", "Alpha", 5⟩] ∧
    ∀ t ∈ (run init sampleOps).teams, ∀ e ∈ (run init sampleOps).eliminated, t.id ≠ e.id :=
  ⟨by decide, by decide, by decide, C1_disjoint_reachable sampleOps (by decide)⟩

theorem slotBacked_eliminateTeam {s : State} (id : String) (now : Nat) (h : SlotBacked s) :
    SlotBacked (eliminateTeam s id now) := by
  unfold eliminateTeam
  split
  · exact h
  · split
    · exact h
    · intro t ht
      simp only [Option.some.injEq] at ht
      simp [ht]

theorem slotBacked_undoElimination {s : State} : SlotBacked (undoElimination s) := by
  unfold undoElimination
  split
  · rename_i hnone
    intro t ht
    rw [hnone] at ht
    cases ht
  · intro t ht
    cases ht

theorem slotBacked_restoreEliminated {s : State} (id : String) (h : SlotBacked s) :
    SlotBacked (restoreEliminated s id) := by
  unfold restoreEliminated
  split
  · exact h
  · intro t ht
    cases hl : s.lastEliminated with
    | none => simp [hl] at ht
    | some prevLast =>
      simp only [hl] at ht
      by_cases hid : prevLast.id = id
      · simp [hid] at ht
      · simp only [hid, if_false, Option.some.injEq] at ht
        subst ht
        simp only [List.mem_filter, bne_iff_ne, ne_eq]
        exact ⟨h prevLast hl, hid⟩

theorem slotBacked_resetAll {s : State} (ok : Bool) (h : SlotBacked s) :
    SlotBacked (resetAll s ok) := by
  cases ok
  · exact h
  · intro t ht; cases ht

theorem slotBacked_undoTimeout {s : State} (h : SlotBacked s) : SlotBacked (undoTimeout s) := by
  unfold undoTimeout
  split
  · exact h
  · intro t ht; cases ht

theorem slotBacked_addTeam {s : State} (now : Nat) (rnd : String) (h : SlotBacked s) :
    SlotBacked (addTeam s now rnd) := by
  unfold addTeam
  by_cases hb : trim s.name = ""
  · simpa [hb] using h
  · simpa [hb, SlotBacked] using h

theorem slotBacked_step {s : State} (op : Op) (h : SlotBacked s) : SlotBacked (step s op) := by
  cases op with
  | setName v => exact h
  | addTeam now rnd => exact slotBacked_addTeam now rnd h
  | changeScore id delta => exact h
  | eliminateTeam id now => exact slotBacked_eliminateTeam id now h
  | undoElimination => exact slotBacked_undoElimination
  | restoreEliminated id => exact slotBacked_restoreEliminated id h
  | resetAll ok => exact slotBacked_resetAll ok h
  | undoTimeout => exact slotBacked_undoTimeout h

theorem slotBacked_run (ops : List Op) : ∀ s : State, SlotBacked s → SlotBacked (run s ops) := by
  induction ops with
  | nil => intro s h; exact h
  | cons op ops ih => intro s h; exact ih (step s op) (slotBacked_step op h)

theorem slotBacked_init : SlotBacked init := by
  intro t ht; cases ht

/-- C2: in every state reached from the empty state by any sequence of
events, a team held in the undo slot (lastEliminated) is a member of the
eliminated list, with the same id, name and score. -/
theorem C2_undo_slot_backed (ops : List Op) (t : Team)
    (hslot : (run init ops).lastEliminated = some t) : t ∈ (run init ops).eliminated :=
  slotBacked_run ops init slotBacked_init t hslot

theorem C2_undo_slot_backed_witness :
    (run init sampleOps).lastEliminated = some ⟨"rsabcd", "Alpha", 5⟩ ∧
    (⟨"rsabcd", "Alpha", 5⟩ : Team) ∈ (run init sampleOps).eliminated :=
  ⟨by decide, C2_undo_slot_backed sampleOps ⟨"rsabcd", "Alpha", 5⟩ (by decide)⟩

/-! ## Eliminate, undo, restore -/

theorem find_id_of_mem {l : List Team} {id : String} (h : ∃ t ∈ l, t.id = id) :
    ∃ team, l.find? (fun t => t.id == id) = some team := by
  cases hf : l.find? (fun t => t.id == id) with
  | some team => exact ⟨team, rfl⟩
  | none =>
    obtain ⟨t, ht, hid⟩ := h
    have := List.find?_eq_none.mp hf t ht
    simp [hid] at this

theorem any_id_false {l : List Team} {id : String} (h : ∀ e ∈ l, e.id ≠ id) :
    l.any (fun e => e.id == id) = false := by
  simpa [List.any_eq_false] using h

theorem filter_ne_self {l : List Team} {id : String} (h : ∀ e ∈ l, e.id ≠ id) :
    l.filter (fun e => e.id != id) = l := by
  rw [List.filter_eq_self]
  intro a ha
  simpa using h a ha

/-- What `eliminateTeam` does when it takes effect: `team` is the first
active team with the id and no eliminated team has the id. -/
theorem eliminateTeam_effect {s : State} {id : String} (now : Nat) {team : Team}
    (hfind : s.teams.find? (fun t => t.id == id) = some team)
    (hel : ∀ e ∈ s.eliminated, e.id ≠ id) :
    eliminateTeam s id now =
      { s with
        teams := s.teams.filter (fun t => t.id != id)
        eliminated := s.eliminated ++ [team]
        lastEliminated := some team
        undoVisible := true
        undoTimerRef := some (now + 8000) } := by
  unfold eliminateTeam
  rw [hfind]
  simp only [any_id_false hel, Bool.false_eq_true, if_false]

/-- Undo right after an effective elimination. -/
theorem undo_after_eliminate {s : State} {id : String} (now : Nat) {team : Team}
    (hfind : s.teams.find? (fun t => t.id == id) = some team)
    (hel : ∀ e ∈ s.eliminated, e.id ≠ id) :
    undoElimination (eliminateTeam s id now) =
      { s with
        teams := s.teams.filter (fun t => t.id != id) ++ [team]
        lastEliminated := none
        undoVisible := false
        undoTimerRef := none } := by
  obtain ⟨_, hid⟩ := find_id_spec hfind
  rw [eliminateTeam_effect now hfind hel]
  have h1 : (s.teams.filter (fun t => t.id != id)).any (fun p => p.id == team.id) = false := by
    rw [hid]; apply any_id_false
    intro e he
    simpa using (List.mem_filter.mp he).2
  have h2 : (s.eliminated ++ [team]).filter (fun x => x.id != team.id) = s.eliminated := by
    rw [hid, List.filter_append, filter_ne_self hel]
    simp [hid]
  simp only [undoElimination, h1, h2, Bool.false_eq_true, if_false]

theorem filter_id_singleton {l : List Team} {id : String} {team : Team}
    (hfind : l.find? (fun t => t.id == id) = some team)
    (hcount : l.countP (fun t => t.id == id) = 1) :
    l.filter (fun t => t.id == id) = [team] := by
  induction l with
  | nil => simp at hfind
  | cons a l ih =>
    by_cases ha : a.id = id
    · have h0 : l.countP (fun t => t.id == id) = 0 := by
        simpa [List.countP_cons, ha] using hcount
      have hnil : l.filter (fun t => t.id == id) = [] := by
        rw [List.filter_eq_nil_iff]
        exact List.countP_eq_zero.mp h0
      have hta : a = team := by simpa [List.find?_cons, ha] using hfind
      subst hta
      simp [List.filter_cons, ha, hnil]
    · have hfind2 : l.find? (fun t => t.id == id) = some team := by
        simpa [List.find?_cons, ha] using hfind
      have hcount2 : l.countP (fun t => t.id == id) = 1 := by
        simpa [List.countP_cons, ha] using hcount
      simp [List.filter_cons, ha, ih hfind2 hcount2]

/-- C3 as stated fails: in a state where two active teams carry the id,
eliminate followed by undo brings back only the first of them. -/
theorem C3_roundtrip_counterexample :
    dupState.teams = [⟨"rsabcd", "Xray", 0⟩, ⟨"rsabcd", "Yankee", 0⟩] ∧
    (∃ t ∈ dupState.teams, t.id = "rsabcd") ∧
    (∀ e ∈ dupState.eliminated, e.id ≠ "rsabcd") ∧
    (undoElimination (eliminateTeam dupState "rsabcd" 2000)).teams = [⟨"rsabcd", "Xray", 0⟩] ∧
    (⟨"rsabcd", "Yankee", 0⟩ : Team) ∈ dupState.teams ∧
    (⟨"rsabcd", "Yankee", 0⟩ : Team) ∉ (undoElimination (eliminateTeam dupState "rsabcd" 2000)).teams ∧
    ¬ List.Perm (undoElimination (eliminateTeam dupState "rsabcd" 2000)).teams dupState.teams := by
  refine ⟨by decide, by decide, by decide, by decide, by decide, by decide, ?_⟩
  intro hperm
  have hlen := hperm.length_eq
  revert hlen
  decide

/-- C3 (amended): when exactly one active team carries the id and no
eliminated team does, Eliminate(id) followed by UndoLastElimination() gives
an active list that is a permutation of the former one, the former
eliminated list, and an empty undo slot. -/
theorem C3_eliminate_undo_roundtrip (s : State) (id : String) (now : Nat)
    (hone : s.teams.countP (fun t => t.id == id) = 1)
    (hel : ∀ e ∈ s.eliminated, e.id ≠ id) :
    List.Perm (undoElimination (eliminateTeam s id now)).teams s.teams ∧
    (undoElimination (eliminateTeam s id now)).eliminated = s.eliminated ∧
    (undoElimination (eliminateTeam s id now)).lastEliminated = none := by
  have hmem : ∃ t ∈ s.teams, t.id = id := by
    have hpos : 0 < s.teams.countP (fun t => t.id == id) := by omega
    obtain ⟨t, ht, hp⟩ := List.countP_pos_iff.mp hpos
    exact ⟨t, ht, by simpa using hp⟩
  obtain ⟨team, hfind⟩ := find_id_of_mem hmem
  rw [undo_after_eliminate now hfind hel]
  refine ⟨?_, rfl, rfl⟩
  have hsplit := List.filter_append_perm (fun t : Team => t.id == id) s.teams
  rw [filter_id_singleton hfind hone] at hsplit
  exact (List.perm_append_comm.trans hsplit)

theorem C3_eliminate_undo_roundtrip_witness :
    List.Perm (undoElimination (eliminateTeam (run init sampleOps) "rthijk" 3000)).teams
      (run init sampleOps).teams ∧
    (undoElimination (eliminateTeam (run init sampleOps) "rthijk" 3000)).eliminated
      = (run init sampleOps).eliminated ∧
    (undoElimination (eliminateTeam (run init sampleOps) "rthijk" 3000)).lastEliminated = none :=
  C3_eliminate_undo_roundtrip (run init sampleOps) "rthijk" 3000 (by decide) (by decide)

theorem eliminateTeam_absent {s : State} {id : String} (now : Nat)
    (h : ∀ t ∈ s.teams, t.id ≠ id) : eliminateTeam s id now = s := by
  have hnone : s.teams.find? (fun t => t.id == id) = none := by
    rw [List.find?_eq_none]
    intro t ht
    simpa using h t ht
  unfold eliminateTeam
  rw [hnone]

/-- C4 as stated fails: with two active teams carrying the id, the team
appended to the eliminated list and stored in the undo slot is the first
one, not any active team T with the id, and the other team with the id
leaves the active list as well. -/
theorem C4_eliminate_counterexample :
    (⟨"rsabcd", "Yankee", 0⟩ : Team) ∈ dupState.teams ∧
    (⟨"rsabcd", "Xray", 0⟩ : Team) ∈ dupState.teams ∧
    (∀ e ∈ dupState.eliminated, e.id ≠ "rsabcd") ∧
    (eliminateTeam dupState "rsabcd" 2000).eliminated
      ≠ dupState.eliminated ++ [⟨"rsabcd", "Yankee", 0⟩] ∧
    (eliminateTeam dupState "rsabcd" 2000).lastEliminated ≠ some ⟨"rsabcd", "Yankee", 0⟩ ∧
    (⟨"rsabcd", "Xray", 0⟩ : Team) ∉ (eliminateTeam dupState "rsabcd" 2000).teams ∧
    (eliminateTeam dupState "rsabcd" 2000).eliminated = [⟨"rsabcd", "Xray", 0⟩] := by
  decide

/-- C4 (amended): if no active team has the id, Eliminate(id) changes
nothing; if T is the first active team with the id and no eliminated team
has the id, then afterwards the active list is the old one without the
teams carrying the id (the others unchanged, in order), T is not active,
the eliminated list is the old one with T appended, the undo slot holds T
and the deadline is now + 8000 ms, whatever slot and deadline were before. -/
theorem C4_eliminate_post (s : State) (id : String) (now : Nat) :
    ((∀ t ∈ s.teams, t.id ≠ id) → eliminateTeam s id now = s) ∧
    (∀ T : Team, s.teams.find? (fun t => t.id == id) = some T →
      (∀ e ∈ s.eliminated, e.id ≠ id) →
      (eliminateTeam s id now).teams = s.teams.filter (fun t => t.id != id) ∧
      T ∉ (eliminateTeam s id now).teams ∧
      (∀ t ∈ s.teams, t.id ≠ id → t ∈ (eliminateTeam s id now).teams) ∧
      (eliminateTeam s id now).eliminated = s.eliminated ++ [T] ∧
      (eliminateTeam s id now).lastEliminated = some T ∧
      (eliminateTeam s id now).undoTimerRef = some (now + 8000)) := by
  refine ⟨eliminateTeam_absent now, ?_⟩
  intro T hfind hel
  obtain ⟨_, hid⟩ := find_id_spec hfind
  rw [eliminateTeam_effect now hfind hel]
  refine ⟨rfl, ?_, ?_, rfl, rfl, rfl⟩
  · simp [List.mem_filter, hid]
  · intro t ht hne
    simp [List.mem_filter, ht, hne]

theorem C4_eliminate_post_witness :
    eliminateTeam (run init sampleOps) "nobody" 3000 = run init sampleOps ∧
    (eliminateTeam (run init sampleOps) "rthijk" 3000).teams = [] ∧
    (eliminateTeam (run init sampleOps) "rthijk" 3000).eliminated
      = [⟨"rsabcd", "Alpha", 5⟩, ⟨"rthijk", "Beta", 0⟩] ∧
    (eliminateTeam (run init sampleOps) "rthijk" 3000).lastEliminated
      = some ⟨"rthijk", "Beta", 0⟩ ∧
    (eliminateTeam (run init sampleOps) "rthijk" 3000).undoTimerRef = some 11000 :=
  have h := (C4_eliminate_post (run init sampleOps) "rthijk" 3000).2 ⟨"rthijk", "Beta", 0⟩
    (by decide) (by decide)
  ⟨(C4_eliminate_post (run init sampleOps) "nobody" 3000).1 (by decide),
   h.1.trans (by decide), h.2.2.2.1.trans (by decide), h.2.2.2.2.1, h.2.2.2.2.2⟩

theorem find_id_append {l : List Team} {id : String} (team : Team)
    (h : ∀ e ∈ l, e.id ≠ id) (hid : team.id = id) :
    (l ++ [team]).find? (fun t => t.id == id) = some team := by
  have hnone : l.find? (fun t => t.id == id) = none := by
    rw [List.find?_eq_none]
    intro t ht
    simpa using h t ht
  simp [List.find?_append, hnone, hid]

/-- Restore right after an effective elimination of the same id. -/
theorem restore_after_eliminate {s : State} {id : String} (now : Nat) {team : Team}
    (hfind : s.teams.find? (fun t => t.id == id) = some team)
    (hel : ∀ e ∈ s.eliminated, e.id ≠ id) :
    restoreEliminated (eliminateTeam s id now) id =
      { s with
        teams := s.teams.filter (fun t => t.id != id) ++ [team]
        lastEliminated := none
        undoVisible := false
        undoTimerRef := none } := by
  obtain ⟨_, hid⟩ := find_id_spec hfind
  rw [eliminateTeam_effect now hfind hel]
  have h1 : (s.teams.filter (fun t => t.id != id)).any (fun p => p.id == id) = false := by
    apply any_id_false
    intro e he
    simpa using (List.mem_filter.mp he).2
  have h2 : (s.eliminated ++ [team]).filter (fun x => x.id != id) = s.eliminated := by
    rw [List.filter_append, filter_ne_self hel]
    simp [hid]
  simp only [restoreEliminated, find_id_append team hel hid, h1, h2, hid, Bool.false_eq_true,
    if_false, if_true]

/-- C5: for a state in which the id is active and not eliminated,
Eliminate(id) then RestoreEliminated(id) gives the same state as
Eliminate(id) then UndoLastElimination(): the undo slot is empty and no
deadline is pending, and a further UndoLastElimination() changes nothing. -/
theorem C5_restore_equals_undo (s : State) (id : String) (now : Nat)
    (hact : ∃ t ∈ s.teams, t.id = id) (hel : ∀ e ∈ s.eliminated, e.id ≠ id) :
    restoreEliminated (eliminateTeam s id now) id = undoElimination (eliminateTeam s id now) ∧
    (restoreEliminated (eliminateTeam s id now) id).lastEliminated = none ∧
    (restoreEliminated (eliminateTeam s id now) id).undoTimerRef = none ∧
    undoElimination (restoreEliminated (eliminateTeam s id now) id)
      = restoreEliminated (eliminateTeam s id now) id := by
  obtain ⟨team, hfind⟩ := find_id_of_mem hact
  rw [restore_after_eliminate now hfind hel, undo_after_eliminate now hfind hel]
  exact ⟨rfl, rfl, rfl, rfl⟩

theorem C5_restore_equals_undo_witness :
    restoreEliminated (eliminateTeam (run init sampleOps) "rthijk" 3000) "rthijk"
      = undoElimination (eliminateTeam (run init sampleOps) "rthijk" 3000) ∧
    (restoreEliminated (eliminateTeam (run init sampleOps) "rthijk" 3000) "rthijk").lastEliminated
      = none ∧
    (restoreEliminated (eliminateTeam (run init sampleOps) "rthijk" 3000) "rthijk").undoTimerRef
      = none ∧
    undoElimination (restoreEliminated (eliminateTeam (run init sampleOps) "rthijk" 3000) "rthijk")
      = restoreEliminated (eliminateTeam (run init sampleOps) "rthijk" 3000) "rthijk" :=
  C5_restore_equals_undo (run init sampleOps) "rthijk" 3000 (by decide) (by decide)

/-- C6: when Eliminate(id) takes effect (the id is active and not yet
eliminated) a deadline at now + 8000 ms is pending; when it fires, the undo
slot is cleared, the active and the eliminated list are unchanged,
UndoLastElimination() is then a no-op, and a team with the id is still in
the eliminated list. -/
theorem C6_undo_expiry (s : State) (id : String) (now : Nat)
    (hact : ∃ t ∈ s.teams, t.id = id) (hel : ∀ e ∈ s.eliminated, e.id ≠ id) :
    (eliminateTeam s id now).undoTimerRef = some (now + 8000) ∧
    (undoTimeout (eliminateTeam s id now)).lastEliminated = none ∧
    (undoTimeout (eliminateTeam s id now)).undoTimerRef = none ∧
    (undoTimeout (eliminateTeam s id now)).teams = (eliminateTeam s id now).teams ∧
    (undoTimeout (eliminateTeam s id now)).eliminated = (eliminateTeam s id now).eliminated ∧
    undoElimination (undoTimeout (eliminateTeam s id now))
      = undoTimeout (eliminateTeam s id now) ∧
    (∃ e ∈ (undoElimination (undoTimeout (eliminateTeam s id now))).eliminated, e.id = id) := by
  obtain ⟨team, hfind⟩ := find_id_of_mem hact
  obtain ⟨_, hid⟩ := find_id_spec hfind
  rw [eliminateTeam_effect now hfind hel]
  refine ⟨rfl, rfl, rfl, rfl, rfl, rfl, team, ?_, hid⟩
  simp [undoTimeout, undoElimination]

theorem C6_undo_expiry_witness :
    (eliminateTeam (run init sampleOps) "rthijk" 3000).undoTimerRef = some (3000 + 8000) ∧
    (undoTimeout (eliminateTeam (run init sampleOps) "rthijk" 3000)).lastEliminated = none ∧
    (undoTimeout (eliminateTeam (run init sampleOps) "rthijk" 3000)).undoTimerRef = none ∧
    (undoTimeout (eliminateTeam (run init sampleOps) "rthijk" 3000)).teams
      = (eliminateTeam (run init sampleOps) "rthijk" 3000).teams ∧
    (undoTimeout (eliminateTeam (run init sampleOps) "rthijk" 3000)).eliminated
      = (eliminateTeam (run init sampleOps) "rthijk" 3000).eliminated ∧
    undoElimination (undoTimeout (eliminateTeam (run init sampleOps) "rthijk" 3000))
      = undoTimeout (eliminateTeam (run init sampleOps) "rthijk" 3000) ∧
    (∃ e ∈ (undoElimination (undoTimeout
        (eliminateTeam (run init sampleOps) "rthijk" 3000))).eliminated, e.id = "rthijk") :=
  C6_undo_expiry (run init sampleOps) "rthijk" 3000 (by decide) (by decide)

/-! ## The undo slot and its deadline -/

/-- C7 fails on the code: restoring team "rsabcd" while the undo slot holds
the other team "rthijk" cancels the pending deadline although the slot stays
filled, so the slot is left without any deadline. -/
theorem C7_restore_cancels_unrelated_deadline :
    (run init staleUndoOps.dropLast).lastEliminated = some ⟨"rthijk", "Beta", 0⟩ ∧
    (run init staleUndoOps.dropLast).undoTimerRef = some 11000 ∧
    (run init staleUndoOps).lastEliminated = some ⟨"rthijk", "Beta", 0⟩ ∧
    (run init staleUndoOps).undoTimerRef = none ∧
    undoTimeout (run init staleUndoOps) = run init staleUndoOps := by
  decide

theorem undoElimination_of_slot {s : State} {u : Team} (h : s.lastEliminated = some u) :
    undoElimination s =
      { s with
        eliminated := s.eliminated.filter (fun x => x.id != u.id)
        teams := if s.teams.any (fun p => p.id == u.id) then s.teams else s.teams ++ [u]
        lastEliminated := none
        undoVisible := false
        undoTimerRef := none } := by
  unfold undoElimination
  rw [h]

/-- C8: when the undo slot holds U and a different id is restored, the slot
still holds U afterwards and U, if eliminated, stays eliminated; a following
UndoLastElimination() removes the teams with the id of U from the eliminated
list, appends U to the active list (unless an active team already has that
id) and empties the slot. -/
theorem C8_restore_keeps_unrelated_undo (s : State) (U : Team) (id : String)
    (hslot : s.lastEliminated = some U) (hne : id ≠ U.id) :
    (restoreEliminated s id).lastEliminated = some U ∧
    (U ∈ s.eliminated → U ∈ (restoreEliminated s id).eliminated) ∧
    (undoElimination (restoreEliminated s id)).eliminated
      = (restoreEliminated s id).eliminated.filter (fun x => x.id != U.id) ∧
    (∀ e ∈ (undoElimination (restoreEliminated s id)).eliminated, e.id ≠ U.id) ∧
    ((∀ t ∈ s.teams, t.id ≠ U.id) →
      (undoElimination (restoreEliminated s id)).teams = (restoreEliminated s id).teams ++ [U]) ∧
    (undoElimination (restoreEliminated s id)).lastEliminated = none := by
  have hkeep : (restoreEliminated s id).lastEliminated = some U := by
    unfold restoreEliminated
    split
    · exact hslot
    · simp [hslot, Ne.symm hne]
  have hteams : (∀ t ∈ s.teams, t.id ≠ U.id) →
      ∀ t ∈ (restoreEliminated s id).teams, t.id ≠ U.id := by
    intro h
    unfold restoreEliminated
    split
    · exact h
    · rename_i team hfind
      obtain ⟨_, hid⟩ := find_id_spec hfind
      intro t ht
      simp only at ht
      split at ht
      · exact h t ht
      · simp only [List.mem_append, List.mem_singleton] at ht
        rcases ht with ht | rfl
        · exact h t ht
        · rw [hid]; exact hne
  refine ⟨hkeep, ?_, ?_, ?_, ?_, ?_⟩
  · intro hU
    unfold restoreEliminated
    split
    · exact hU
    · simp [List.mem_filter, hU, Ne.symm hne]
  · rw [undoElimination_of_slot hkeep]
  · rw [undoElimination_of_slot hkeep]
    intro e he
    simpa using (List.mem_filter.mp he).2
  · intro h
    rw [undoElimination_of_slot hkeep]
    simp only [any_id_false (hteams h), Bool.false_eq_true, if_false]
  · rw [undoElimination_of_slot hkeep]

theorem C8_restore_keeps_unrelated_undo_witness :
    (restoreEliminated (run init staleUndoOps.dropLast) "rsabcd").lastEliminated
      = some ⟨"rthijk", "Beta", 0⟩ ∧
    (undoElimination (restoreEliminated (run init staleUndoOps.dropLast) "rsabcd")).teams
      = [⟨"rsabcd", "Alpha", 0⟩, ⟨"rthijk", "Beta", 0⟩] ∧
    (undoElimination (restoreEliminated (run init staleUndoOps.dropLast) "rsabcd")).eliminated
      = [] :=
  have h := C8_restore_keeps_unrelated_undo (run init staleUndoOps.dropLast)
    ⟨"rthijk", "Beta", 0⟩ "rsabcd" (by decide) (by decide)
  ⟨h.1, (h.2.2.2.2.1 (by decide)).trans (by decide), h.2.2.1.trans (by decide)⟩

/-! ## AddTeam -/

theorem trim_blank {name : String} (hblank : ∀ c ∈ name.data, isWhiteSpace c = true) :
    trim name = "" := by
  have h : name.data.dropWhile isWhiteSpace = [] := by
    rw [List.dropWhile_eq_nil_iff]
    exact hblank
  simp only [trim, trimChars, h]
  rfl

/-- C9: for a name that is empty or made of white space only, AddTeam(name)
leaves the active list (and its size), the eliminated list, the undo slot
and the deadline unchanged; only the input field holds the typed text. -/
theorem C9_blank_name_rejected (s : State) (name : String) (now : Nat) (rnd : String)
    (hblank : ∀ c ∈ name.data, isWhiteSpace c = true) :
    addTeamNamed s name now rnd = setName s name ∧
    (addTeamNamed s name now rnd).teams = s.teams ∧
    (addTeamNamed s name now rnd).teams.length = s.teams.length ∧
    (addTeamNamed s name now rnd).eliminated = s.eliminated ∧
    (addTeamNamed s name now rnd).lastEliminated = s.lastEliminated ∧
    (addTeamNamed s name now rnd).undoTimerRef = s.undoTimerRef := by
  have h : addTeamNamed s name now rnd = setName s name := by
    simp [addTeamNamed, addTeam, setName, trim_blank hblank]
  rw [h]
  exact ⟨rfl, rfl, rfl, rfl, rfl, rfl⟩

theorem C9_blank_name_rejected_witness :
    (addTeamNamed (run init sampleOps) "" 5000 "0.zzzz").teams = (run init sampleOps).teams ∧
    (addTeamNamed (run init sampleOps) "   " 5000 "0.zzzz").teams = (run init sampleOps).teams ∧
    (addTeamNamed (run init sampleOps) " \t\n " 5000 "0.zzzz").teams.length = 1 :=
  ⟨(C9_blank_name_rejected (run init sampleOps) "" 5000 "0.zzzz" (by decide)).2.1,
   (C9_blank_name_rejected (run init sampleOps) "   " 5000 "0.zzzz" (by decide)).2.1,
   (C9_blank_name_rejected (run init sampleOps) " \t\n " 5000 "0.zzzz" (by decide)).2.2.1.trans
     (by decide)⟩

theorem charVal_digitChar36 (d : Nat) (h : d < 36) : charVal (digitChar36 d) = d := by
  interval_cases d <;> decide

theorem toDigits36_acc (fuel : Nat) : ∀ (n : Nat) (acc : List Char),
    toDigits36 fuel n acc = toDigits36 fuel n [] ++ acc := by
  induction fuel with
  | zero => intro n acc; simp [toDigits36]
  | succ fuel ih =>
    intro n acc
    by_cases hn : n < 36
    · simp [toDigits36, hn]
    · simp only [toDigits36, hn, if_false]
      rw [ih (n / 36) (digitChar36 (n % 36) :: acc), ih (n / 36) [digitChar36 (n % 36)]]
      simp

theorem decode36_toDigits36 (fuel : Nat) : ∀ n : Nat, n < fuel →
    decode36 (toDigits36 fuel n []) = n := by
  induction fuel with
  | zero => intro n hn; omega
  | succ fuel ih =>
    intro n hlt
    by_cases hn : n < 36
    · simp [toDigits36, hn, decode36, charVal_digitChar36 n hn]
    · simp only [toDigits36, hn, if_false]
      rw [toDigits36_acc]
      have hdiv : n / 36 < fuel := by omega
      have hrec := ih (n / 36) hdiv
      have hmod : n % 36 < 36 := Nat.mod_lt _ (by decide)
      simp only [decode36, List.foldl_append, List.foldl_cons, List.foldl_nil] at hrec ⊢
      rw [hrec, charVal_digitChar36 _ hmod]
      omega

theorem toString36_injective {a b : Nat} (h : toString36 a = toString36 b) : a = b := by
  have hd : toDigits36 (a + 1) a [] = toDigits36 (b + 1) b [] := congrArg String.data h
  have := congrArg decode36 hd
  rwa [decode36_toDigits36 _ a (by omega), decode36_toDigits36 _ b (by omega)] at this

theorem genId_injective {now now' : Nat} {rnd rnd' : String}
    (hlen : (slice rnd' 2 6).length = (slice rnd 2 6).length)
    (h : genId now' rnd' = genId now rnd) : now' = now ∧ slice rnd' 2 6 = slice rnd 2 6 := by
  have hd := congrArg String.data h
  simp only [genId, String.data_append] at hd
  obtain ⟨h1, h2⟩ := List.append_inj' hd hlen
  exact ⟨toString36_injective (String.ext h1), String.ext h2⟩

/-- C10 as stated fails: a second AddTeam at the same clock value and with
the same random draw gives the new team the id of the team already active. -/
theorem C10_fresh_id_counterexample :
    trim "Yankee" ≠ "" ∧
    oneTeamState.teams = [⟨"rsabcd", "Xray", 0⟩] ∧
    (addTeamNamed oneTeamState "Yankee" 1000 "0.abcdefg").teams
      = oneTeamState.teams ++ [⟨"rsabcd", "Yankee", 0⟩] ∧
    (∃ t ∈ oneTeamState.teams, t.id = "rsabcd") := by
  decide

/-- C10 (amended): for a name whose trimmed form is non-empty, AddTeam
appends a team whose id is built from the clock and the random text alone
(the clock in base 36 followed by characters 2 to 5 of the random text),
without looking at the state; that id differs from every id built by the
same rule with a random part of the same length, when the clock value or the
random part is another one. -/
theorem C10_generated_id (s : State) (name : String) (now : Nat) (rnd : String)
    (hname : trim name ≠ "") :
    (addTeamNamed s name now rnd).teams
      = s.teams ++ [{ id := genId now rnd, name := trim name, score := 0 }] ∧
    (∀ (now' : Nat) (rnd' : String),
      (slice rnd' 2 6).length = (slice rnd 2 6).length →
      (now' ≠ now ∨ slice rnd' 2 6 ≠ slice rnd 2 6) →
      genId now' rnd' ≠ genId now rnd) := by
  refine ⟨by simp [addTeamNamed, addTeam, setName, hname], ?_⟩
  intro now' rnd' hlen hdiff heq
  obtain ⟨h1, h2⟩ := genId_injective hlen heq
  rcases hdiff with hd | hd
  · exact hd h1
  · exact hd h2

theorem C10_generated_id_witness :
    (addTeamNamed oneTeamState " Yankee " 1000 "0.abcdefg").teams
      = [⟨"rsabcd", "Xray", 0⟩, ⟨"rsabcd", "Yankee", 0⟩] ∧
    genId 1001 "0.abcdefg" ≠ genId 1000 "0.abcdefg" :=
  have h := C10_generated_id oneTeamState " Yankee " 1000 "0.abcdefg" (by decide)
  ⟨h.1.trans (by decide), h.2 1001 "0.abcdefg" (by decide) (Or.inl (by decide))⟩

/-! ## AddTeam and AdjustScore postconditions -/

/-- C11: for a name whose trimmed form is non-empty, AddTeam(name) gives the
old active list with exactly one team appended, whose name is the trimmed
name and whose score is 0; the eliminated list, the undo slot and the
deadline are unchanged. -/
theorem C11_add_team_post (s : State) (name : String) (now : Nat) (rnd : String)
    (hname : trim name ≠ "") :
    (∃ t : Team, (addTeamNamed s name now rnd).teams = s.teams ++ [t] ∧
      t.name = trim name ∧ t.score = 0) ∧
    (addTeamNamed s name now rnd).teams.length = s.teams.length + 1 ∧
    (addTeamNamed s name now rnd).eliminated = s.eliminated ∧
    (addTeamNamed s name now rnd).lastEliminated = s.lastEliminated ∧
    (addTeamNamed s name now rnd).undoTimerRef = s.undoTimerRef := by
  have h : addTeamNamed s name now rnd =
      { s with teams := s.teams ++ [{ id := genId now rnd, name := trim name, score := 0 }],
               name := "" } := by
    simp [addTeamNamed, addTeam, setName, hname]
  rw [h]
  exact ⟨⟨_, rfl, rfl, rfl⟩, by simp, rfl, rfl, rfl⟩

theorem C11_add_team_post_witness :
    (addTeamNamed (run init sampleOps) "  Gamma " 4000 "0.qrstuv").teams
      = [⟨"rthijk", "Beta", 0⟩, ⟨"334qrst", "Gamma", 0⟩] ∧
    (addTeamNamed (run init sampleOps) "  Gamma " 4000 "0.qrstuv").eliminated
      = (run init sampleOps).eliminated ∧
    (addTeamNamed (run init sampleOps) "  Gamma " 4000 "0.qrstuv").lastEliminated
      = (run init sampleOps).lastEliminated :=
  have h := C11_add_team_post (run init sampleOps) "  Gamma " 4000 "0.qrstuv" (by decide)
  ⟨by decide, h.2.2.1, h.2.2.2.1⟩

theorem droppedBits_small (fuel m : Nat) (h : m < 2 ^ 53) : droppedBits fuel m = 0 := by
  cases fuel with
  | zero => rfl
  | succ fuel => simp only [droppedBits, h, if_true]

theorem toDoubleNat_exact (m : Nat) (h : m ≤ 2 ^ 53) : toDoubleNat m = m := by
  rcases Nat.lt_or_eq_of_le h with hlt | heq
  · simp only [toDoubleNat, droppedBits_small m m hlt, if_true]
  · subst heq
    decide

/-- Integers of magnitude at most 2 ^ 53 are doubles: rounding keeps them. -/
theorem toDouble_exact (n : Int) (h : n.natAbs ≤ 2 ^ 53) : toDouble n = n := by
  unfold toDouble
  rw [toDoubleNat_exact _ h]
  by_cases hn : n < 0
  · rw [if_pos hn]; omega
  · rw [if_neg hn]; omega

/-- C12 as stated fails: a team whose score is 2 ^ 53 gets, with delta 5,
the score 9007199254740996 and not 9007199254740997, because the sum of two
JavaScript numbers is rounded to a double. -/
theorem C12_exact_sum_counterexample :
    storedBigScore.teams = [⟨"rsabcd", "Xray", 9007199254740992⟩] ∧
    (changeScore storedBigScore "rsabcd" 5).teams = [⟨"rsabcd", "Xray", 9007199254740996⟩] ∧
    (9007199254740996 : Int) ≠ 9007199254740992 + 5 := by
  decide

/-- C12 (amended): AdjustScore(id, delta) changes nothing when no active
team has the id; otherwise the active list keeps its length and order, every
team with the id keeps its id and name and gets the score old + delta rounded
to a double, which is old + delta itself when its magnitude is at most
2 ^ 53 (no clamping, negative results allowed), every team with another id is
unchanged, and the eliminated list, the undo slot and the deadline are
unchanged. -/
theorem C12_adjust_score_post (s : State) (id : String) (delta : Int) :
    ((∀ t ∈ s.teams, t.id ≠ id) → changeScore s id delta = s) ∧
    (changeScore s id delta).teams.length = s.teams.length ∧
    (∀ (i : Nat) (t : Team), s.teams[i]? = some t →
      (t.id = id → (changeScore s id delta).teams[i]?
        = some { id := t.id, name := t.name, score := toDouble (t.score + delta) }) ∧
      (t.id = id → (t.score + delta).natAbs ≤ 2 ^ 53 → (changeScore s id delta).teams[i]?
        = some { id := t.id, name := t.name, score := t.score + delta }) ∧
      (t.id ≠ id → (changeScore s id delta).teams[i]? = some t)) ∧
    (changeScore s id delta).eliminated = s.eliminated ∧
    (changeScore s id delta).lastEliminated = s.lastEliminated ∧
    (changeScore s id delta).undoTimerRef = s.undoTimerRef := by
  refine ⟨?_, by simp [changeScore], ?_, rfl, rfl, rfl⟩
  · intro h
    have hmap : s.teams.map
        (fun t => if t.id = id then { t with score := jsAdd t.score delta } else t) = s.teams := by
      conv_rhs => rw [← List.map_id s.teams]
      apply List.map_congr_left
      intro t ht
      simp [h t ht]
    simp only [changeScore, hmap]
  · intro i t hi
    have hround : t.id = id → (changeScore s id delta).teams[i]?
        = some { id := t.id, name := t.name, score := toDouble (t.score + delta) } := by
      intro hid
      simp [changeScore, List.getElem?_map, hi, hid, jsAdd]
    refine ⟨hround, ?_, ?_⟩
    · intro hid hsmall
      rw [hround hid, toDouble_exact _ hsmall]
    · intro hid
      simp [changeScore, List.getElem?_map, hi, hid]

theorem C12_adjust_score_post_witness :
    changeScore (run init sampleOps) "rsabcd" (-5) = run init sampleOps ∧
    (changeScore (run init sampleOps) "rthijk" (-5)).teams[0]? = some ⟨"rthijk", "Beta", -5⟩ ∧
    (changeScore storedBigScore "rsabcd" 5).teams[0]?
      = some ⟨"rsabcd", "Xray", toDouble (9007199254740992 + 5)⟩ ∧
    (changeScore (run init sampleOps) "rsabcd" (-5)).eliminated = [⟨"rsabcd", "Alpha", 5⟩] :=
  ⟨(C12_adjust_score_post (run init sampleOps) "rsabcd" (-5)).1 (by decide),
   ((C12_adjust_score_post (run init sampleOps) "rthijk" (-5)).2.2.1 0 ⟨"rthijk", "Beta", 0⟩
      (by decide)).2.1 rfl (by decide),
   ((C12_adjust_score_post storedBigScore "rsabcd" 5).2.2.1 0
      ⟨"rsabcd", "Xray", 9007199254740992⟩ (by decide)).1 rfl,
   (C12_adjust_score_post (run init sampleOps) "rsabcd" (-5)).2.2.2.1.trans (by decide)⟩

/-! ## Display order -/

theorem compareTeams_le_iff (localeCompare : String → String → Int) (a b : Team) :
    compareTeams localeCompare a b ≤ 0 ↔
      (a.score > b.score ∨ (a.score = b.score ∧ localeCompare a.name b.name ≤ 0)) := by
  unfold compareTeams
  by_cases h : b.score - a.score ≠ 0
  · rw [if_pos h]
    constructor
    · intro hle; left; omega
    · rintro (hgt | ⟨heq, _⟩)
      · omega
      · omega
  · rw [if_neg h]
    have heq : a.score = b.score := by omega
    constructor
    · intro hle; exact Or.inr ⟨heq, hle⟩
    · rintro (hgt | ⟨_, hle⟩)
      · omega
      · exact hle

theorem codePointCompare_le_iff (a b : String) : codePointCompare a b ≤ 0 ↔ a.data ≤ b.data := by
  unfold codePointCompare
  by_cases h1 : a.data < b.data
  · simp [h1, le_of_lt h1]
  · by_cases h2 : a.data = b.data
    · simp [h2]
    · simp only [h1, h2, if_false]
      constructor
      · intro h; omega
      · intro hle
        exact absurd (lt_of_le_of_ne hle h2) h1

theorem codePointCompare_total (a b : String) :
    codePointCompare a b ≤ 0 ∨ codePointCompare b a ≤ 0 := by
  rw [codePointCompare_le_iff, codePointCompare_le_iff]
  exact le_total _ _

theorem codePointCompare_trans (a b c : String) (hab : codePointCompare a b ≤ 0)
    (hbc : codePointCompare b c ≤ 0) : codePointCompare a c ≤ 0 := by
  rw [codePointCompare_le_iff] at *
  exact le_trans hab hbc

/-- C13: for a collation `localeCompare` that is a total preorder, the
displayed active teams are a permutation of the active list, and whenever a
is shown before b either a.score > b.score, or the scores are equal and
a.name does not come after b.name. -/
theorem C13_display_order (localeCompare : String → String → Int)
    (htotal : ∀ a b, localeCompare a b ≤ 0 ∨ localeCompare b a ≤ 0)
    (htrans : ∀ a b c, localeCompare a b ≤ 0 → localeCompare b c ≤ 0 → localeCompare a c ≤ 0)
    (teams : List Team) :
    List.Perm (displayedTeams localeCompare teams) teams ∧
    List.Pairwise
      (fun a b => a.score > b.score ∨ (a.score = b.score ∧ localeCompare a.name b.name ≤ 0))
      (displayedTeams localeCompare teams) := by
  refine ⟨List.perm_insertionSort _ teams, ?_⟩
  haveI : IsTotal Team (fun a b => compareTeams localeCompare a b ≤ 0) := by
    constructor
    intro a b
    simp only [compareTeams_le_iff]
    rcases lt_trichotomy a.score b.score with h | h | h
    · exact Or.inr (Or.inl h)
    · rcases htotal a.name b.name with hn | hn
      · exact Or.inl (Or.inr ⟨h, hn⟩)
      · exact Or.inr (Or.inr ⟨h.symm, hn⟩)
    · exact Or.inl (Or.inl h)
  haveI : IsTrans Team (fun a b => compareTeams localeCompare a b ≤ 0) := by
    constructor
    intro a b c
    simp only [compareTeams_le_iff]
    rintro (h1 | ⟨h1, n1⟩) (h2 | ⟨h2, n2⟩)
    · left; omega
    · left; omega
    · left; omega
    · exact Or.inr ⟨h1.trans h2, htrans _ _ _ n1 n2⟩
  have hsorted := List.sorted_insertionSort (fun a b => compareTeams localeCompare a b ≤ 0) teams
  unfold displayedTeams sliceSort
  exact hsorted.imp (fun {a b} h => (compareTeams_le_iff localeCompare a b).mp h)

theorem C13_display_order_witness :
    displayedTeams codePointCompare
        [⟨"a", "Zed", 5⟩, ⟨"b", "Bob", 10⟩, ⟨"c", "Amy", 10⟩, ⟨"d", "Cat", 7⟩]
      = [⟨"c", "Amy", 10⟩, ⟨"b", "Bob", 10⟩, ⟨"d", "Cat", 7⟩, ⟨"a", "Zed", 5⟩] ∧
    List.Perm (displayedTeams codePointCompare
        [⟨"a", "Zed", 5⟩, ⟨"b", "Bob", 10⟩, ⟨"c", "Amy", 10⟩, ⟨"d", "Cat", 7⟩])
      [⟨"a", "Zed", 5⟩, ⟨"b", "Bob", 10⟩, ⟨"c", "Amy", 10⟩, ⟨"d", "Cat", 7⟩] ∧
    List.Pairwise
      (fun a b => a.score > b.score ∨ (a.score = b.score ∧ codePointCompare a.name b.name ≤ 0))
      (displayedTeams codePointCompare
        [⟨"a", "Zed", 5⟩, ⟨"b", "Bob", 10⟩, ⟨"c", "Amy", 10⟩, ⟨"d", "Cat", 7⟩]) :=
  ⟨by decide,
   C13_display_order codePointCompare codePointCompare_total codePointCompare_trans
     [⟨"a", "Zed", 5⟩, ⟨"b", "Bob", 10⟩, ⟨"c", "Amy", 10⟩, ⟨"d", "Cat", 7⟩]⟩

/-! ## Top-scorer flag -/

theorem foldl_mathMax_some (l : List Team) : ∀ m : Int,
    l.foldl (fun m t => mathMax m t.score) (some m)
      = some (l.foldl (fun m t => max m t.score) m) := by
  induction l with
  | nil => intro m; rfl
  | cons a l ih => intro m; exact ih (max m a.score)

theorem foldl_max_bounds (l : List Team) : ∀ m : Int,
    m ≤ l.foldl (fun m t => max m t.score) m ∧
    (∀ u ∈ l, u.score ≤ l.foldl (fun m t => max m t.score) m) ∧
    (l.foldl (fun m t => max m t.score) m = m ∨
      ∃ t ∈ l, t.score = l.foldl (fun m t => max m t.score) m) := by
  induction l with
  | nil => intro m; simp
  | cons a l ih =>
    intro m
    obtain ⟨h1, h2, h3⟩ := ih (max m a.score)
    simp only [List.foldl_cons]
    refine ⟨le_trans (le_max_left _ _) h1, ?_, ?_⟩
    · intro u hu
      rcases List.mem_cons.mp hu with rfl | hu
      · exact le_trans (le_max_right _ _) h1
      · exact h2 u hu
    · rcases h3 with h3 | ⟨t, ht, hts⟩
      · rcases max_choice m a.score with hm | hm
        · left; rw [h3, hm]
        · right; exact ⟨a, List.mem_cons_self _ _, by rw [h3, hm]⟩
      · right; exact ⟨t, List.mem_cons_of_mem _ ht, hts⟩

/-- The top score of a non-empty list is the score of one of its teams and
bounds every score of the list. -/
theorem topScore_spec (teams : List Team) (hne : teams ≠ []) :
    ∃ m : Int, topScore teams = some m ∧ (∀ u ∈ teams, u.score ≤ m) ∧
      ∃ t ∈ teams, t.score = m := by
  cases teams with
  | nil => exact absurd rfl hne
  | cons a l =>
    obtain ⟨h1, h2, h3⟩ := foldl_max_bounds l a.score
    refine ⟨l.foldl (fun m t => max m t.score) a.score, ?_, ?_, ?_⟩
    · exact foldl_mathMax_some l a.score
    · intro u hu
      rcases List.mem_cons.mp hu with rfl | hu
      · exact h1
      · exact h2 u hu
    · rcases h3 with h3 | ⟨t, ht, hts⟩
      · exact ⟨a, List.mem_cons_self _ _, h3.symm⟩
      · exact ⟨t, List.mem_cons_of_mem _ ht, hts⟩

/-- C14: an active team is flagged as top scorer exactly when its score is
at least the score of every active team; a non-empty list has a flagged
team, an empty list flags nothing, scores 10, 10, 5 flag the two 10s, and a
single team is flagged. -/
theorem C14_top_scorer_flag (teams : List Team) :
    (∀ t ∈ teams, (isTopTeam teams t = true ↔ ∀ u ∈ teams, u.score ≤ t.score)) ∧
    (teams ≠ [] → ∃ t ∈ teams, isTopTeam teams t = true) ∧
    (∀ t : Team, isTopTeam [] t = false) ∧
    (∀ a b c : Team, a.score = 10 → b.score = 10 → c.score = 5 →
      isTopTeam [a, b, c] a = true ∧ isTopTeam [a, b, c] b = true ∧
      isTopTeam [a, b, c] c = false) ∧
    (∀ a : Team, isTopTeam [a] a = true) := by
  refine ⟨?_, ?_, ?_, ?_, ?_⟩
  · intro t ht
    obtain ⟨m, hm, hub, w, hw, hwm⟩ := topScore_spec teams (List.ne_nil_of_mem ht)
    simp only [isTopTeam, hm, beq_iff_eq, Option.some.injEq]
    constructor
    · intro h u hu; rw [← h]; exact hub u hu
    · intro h
      exact le_antisymm (by rw [← hwm]; exact h w hw) (hub t ht)
  · intro hne
    obtain ⟨m, hm, _, w, hw, hwm⟩ := topScore_spec teams hne
    exact ⟨w, hw, by simp [isTopTeam, hm, hwm]⟩
  · intro t
    simp [isTopTeam, topScore]
  · intro a b c ha hb hc
    simp [isTopTeam, topScore, mathMax, ha, hb, hc]
  · intro a
    simp [isTopTeam, topScore, mathMax]

theorem C14_top_scorer_flag_witness :
    isTopTeam [⟨"a", "Zed", 10⟩, ⟨"b", "Bob", 10⟩, ⟨"c", "Amy", 5⟩] ⟨"b", "Bob", 10⟩ = true ∧
    isTopTeam [⟨"a", "Zed", 10⟩, ⟨"b", "Bob", 10⟩, ⟨"c", "Amy", 5⟩] ⟨"c", "Amy", 5⟩ = false ∧
    (∃ t ∈ [(⟨"a", "Zed", -3⟩ : Team)], isTopTeam [⟨"a", "Zed", -3⟩] t = true) :=
  ⟨((C14_top_scorer_flag [⟨"a", "Zed", 10⟩, ⟨"b", "Bob", 10⟩, ⟨"c", "Amy", 5⟩]).1
      ⟨"b", "Bob", 10⟩ (by decide)).mpr (by decide),
   by decide,
   (C14_top_scorer_flag [⟨"a", "Zed", -3⟩]).2.1 (by decide)⟩

/-! ## ResetAll and the duplicate guard of Eliminate -/

theorem lookup_after_remove (st : Store) (k1 k2 k : String) (hk : k = k1 ∨ k = k2) :
    (storeApply (storeApply st (.removeItem k1)) (.removeItem k2)).lookup k = none := by
  simp only [storeApply]
  rw [List.lookup_eq_none_iff]
  intro kv hkv
  have h2 := (List.mem_filter.mp hkv).2
  have h1 := (List.mem_filter.mp (List.mem_filter.mp hkv).1).2
  simp only [bne_iff_ne, ne_eq] at h1 h2
  rw [bne_iff_ne]
  rcases hk with rfl | rfl
  · exact fun h => h1 h.symm
  · exact fun h => h2 h.symm

/-- C15: with a negative confirmation ResetAll leaves the state and the
persisted store unchanged and makes no storage call; with an affirmative one
the active list, the eliminated list and the undo slot are empty, no
deadline is pending, and removeItem is called for both persisted keys. -/
theorem C15_reset_all_gated (s : State) (st : Store) :
    resetAll s false = s ∧
    resetAllCalls false = [] ∧
    resetAllStore st false = st ∧
    (resetAll s true).teams = [] ∧
    (resetAll s true).eliminated = [] ∧
    (resetAll s true).lastEliminated = none ∧
    (resetAll s true).undoTimerRef = none ∧
    resetAllCalls true
      = [.removeItem "score-tracker:teams", .removeItem "score-tracker:eliminated"] ∧
    (resetAllStore st true).lookup "score-tracker:teams" = none ∧
    (resetAllStore st true).lookup "score-tracker:eliminated" = none :=
  ⟨rfl, rfl, rfl, rfl, rfl, rfl, rfl, rfl,
   lookup_after_remove st teamsKey eliminatedKey teamsKey (Or.inl rfl),
   lookup_after_remove st teamsKey eliminatedKey eliminatedKey (Or.inr rfl)⟩

/-- C20: when the id is carried by an active team and by a team already in
the eliminated list, Eliminate(id) only removes the teams with the id from
the active list: the eliminated list, the undo slot, the deadline and the
visibility of the undo button are exactly as before. -/
theorem C20_eliminate_duplicate_guard (s : State) (id : String) (now : Nat)
    (hact : ∃ t ∈ s.teams, t.id = id) (hel : ∃ e ∈ s.eliminated, e.id = id) :
    eliminateTeam s id now = { s with teams := s.teams.filter (fun t => t.id != id) } ∧
    (∀ t ∈ (eliminateTeam s id now).teams, t.id ≠ id) ∧
    (eliminateTeam s id now).eliminated = s.eliminated ∧
    (eliminateTeam s id now).lastEliminated = s.lastEliminated ∧
    (eliminateTeam s id now).undoTimerRef = s.undoTimerRef ∧
    (eliminateTeam s id now).undoVisible = s.undoVisible := by
  obtain ⟨team, hfind⟩ := find_id_of_mem hact
  have hany : s.eliminated.any (fun e => e.id == id) = true := by
    obtain ⟨e, he, hid⟩ := hel
    exact List.any_eq_true.mpr ⟨e, he, by simp [hid]⟩
  have h : eliminateTeam s id now = { s with teams := s.teams.filter (fun t => t.id != id) } := by
    unfold eliminateTeam
    rw [hfind]
    simp only [hany, if_true]
  rw [h]
  refine ⟨rfl, ?_, rfl, rfl, rfl, rfl⟩
  intro t ht
  simpa using (List.mem_filter.mp ht).2

theorem C20_eliminate_duplicate_guard_witness :
    collidedState.teams = [⟨"rsabcd", "Yankee", 0⟩] ∧
    collidedState.eliminated = [⟨"rsabcd", "Xray", 0⟩] ∧
    (eliminateTeam collidedState "rsabcd" 5000).teams = [] ∧
    (eliminateTeam collidedState "rsabcd" 5000).eliminated = [⟨"rsabcd", "Xray", 0⟩] ∧
    (eliminateTeam collidedState "rsabcd" 5000).lastEliminated = some ⟨"rsabcd", "Xray", 0⟩ ∧
    (eliminateTeam collidedState "rsabcd" 5000).undoTimerRef = some 10000 :=
  have h := C20_eliminate_duplicate_guard collidedState "rsabcd" 5000 (by decide) (by decide)
  ⟨by decide, by decide, by decide, h.2.2.1.trans (by decide), h.2.2.2.1.trans (by decide),
   h.2.2.2.2.1.trans (by decide)⟩

/-! ## Uniqueness of ids within each list -/

theorem ids_filter_nodup {l : List Team} (p : Team → Bool) (h : (ids l).Nodup) :
    (ids (l.filter p)).Nodup := by
  unfold ids at h ⊢
  exact List.Nodup.sublist ((List.filter_sublist l).map _) h

theorem ids_append_nodup {l : List Team} {t : Team} (h : (ids l).Nodup)
    (hnew : l.any (fun p => p.id == t.id) = false) : (ids (l ++ [t])).Nodup := by
  have hnot : t.id ∉ ids l := by
    intro hmem
    obtain ⟨u, hu, hid⟩ := List.mem_map.mp hmem
    have := List.any_eq_false.mp hnew u hu
    simp [hid] at this
  simp only [ids, List.map_append, List.map_cons, List.map_nil] at hnot ⊢
  rw [List.nodup_append]
  refine ⟨h, List.nodup_singleton _, ?_⟩
  intro a ha hb
  rw [List.mem_singleton] at hb
  exact hnot (hb ▸ ha)

theorem ids_changeScore (l : List Team) (id : String) (delta : Int) :
    ids (l.map (fun t => if t.id = id then { t with score := jsAdd t.score delta } else t))
      = ids l := by
  simp only [ids, List.map_map]
  apply List.map_congr_left
  intro t _
  simp only [Function.comp]
  split <;> rfl

theorem uniqueElim_step {s : State} (op : Op) (h : (ids s.eliminated).Nodup) :
    (ids (step s op).eliminated).Nodup := by
  cases op with
  | setName v => exact h
  | addTeam now rnd =>
    simp only [step, addTeam]
    split <;> exact h
  | changeScore id delta => exact h
  | eliminateTeam id now =>
    simp only [step, eliminateTeam]
    split
    · exact h
    · rename_i team hfind
      obtain ⟨_, hid⟩ := find_id_spec hfind
      by_cases hany : s.eliminated.any (fun e => e.id == id) = true
      · simpa [hany] using h
      · rw [Bool.not_eq_true] at hany
        simp only [hany, Bool.false_eq_true, if_false]
        exact ids_append_nodup h (by rw [hid]; exact hany)
  | undoElimination =>
    simp only [step, undoElimination]
    split
    · exact h
    · exact ids_filter_nodup _ h
  | restoreEliminated id =>
    simp only [step, restoreEliminated]
    split
    · exact h
    · exact ids_filter_nodup _ h
  | resetAll ok =>
    cases ok
    · exact h
    · simp [step, resetAll, ids]
  | undoTimeout =>
    simp only [step, undoTimeout]
    split <;> exact h

theorem uniqueActive_step {s : State} (op : Op) (h : (ids s.teams).Nodup)
    (hf : freshOp s op = true) : (ids (step s op).teams).Nodup := by
  cases op with
  | setName v => exact h
  | addTeam now rnd =>
    simp only [step, addTeam]
    by_cases hb : trim s.name = ""
    · simpa [hb] using h
    · simp only [hb, if_false]
      apply ids_append_nodup h
      simp only [freshOp, Bool.or_eq_true, beq_iff_eq, hb, false_or, Bool.and_eq_true,
        Bool.not_eq_true', List.contains_eq_any_beq, List.any_eq_false] at hf
      rw [List.any_eq_false]
      intro u hu
      have := hf.1 u.id (List.mem_map.mpr ⟨u, hu, rfl⟩)
      intro hc
      simp only [beq_iff_eq] at hc
      exact this hc.symm
  | changeScore id delta =>
    simp only [step, changeScore, ids_changeScore]
    exact h
  | eliminateTeam id now =>
    simp only [step, eliminateTeam]
    split
    · exact h
    · split <;> exact ids_filter_nodup _ h
  | undoElimination =>
    simp only [step, undoElimination]
    split
    · exact h
    · rename_i u _
      by_cases hany : s.teams.any (fun p => p.id == u.id) = true
      · simpa [hany] using h
      · rw [Bool.not_eq_true] at hany
        simp only [hany, Bool.false_eq_true, if_false]
        exact ids_append_nodup h hany
  | restoreEliminated id =>
    simp only [step, restoreEliminated]
    split
    · exact h
    · rename_i team _
      by_cases hany : s.teams.any (fun p => p.id == team.id) = true
      · simpa [hany] using h
      · rw [Bool.not_eq_true] at hany
        simp only [hany, Bool.false_eq_true, if_false]
        exact ids_append_nodup h hany
  | resetAll ok =>
    cases ok
    · exact h
    · simp [step, resetAll, ids]
  | undoTimeout =>
    simp only [step, undoTimeout]
    split <;> exact h

theorem uniqueElim_run (ops : List Op) : ∀ s : State, (ids s.eliminated).Nodup →
    (ids (run s ops).eliminated).Nodup := by
  induction ops with
  | nil => intro s h; exact h
  | cons op ops ih => intro s h; exact ih (step s op) (uniqueElim_step op h)

theorem uniqueActive_run (ops : List Op) : ∀ s : State, (ids s.teams).Nodup →
    freshRun s ops = true → (ids (run s ops).teams).Nodup := by
  induction ops with
  | nil => intro s h _; exact h
  | cons op ops ih =>
    intro s h hf
    simp only [freshRun, Bool.and_eq_true] at hf
    exact ih (step s op) (uniqueActive_step op h hf.1) hf.2

theorem pairwise_of_ids_nodup {l : List Team} (h : (ids l).Nodup) :
    l.Pairwise (fun a b => a.id ≠ b.id) :=
  List.pairwise_map.mp h

/-- C18: starting from the empty state, after every finite sequence of
events in which each AddTeam inserts an id carried by no active and no
eliminated team, no two active teams share an id and no two eliminated teams
share an id. -/
theorem C18_ids_unique_in_each_list (ops : List Op) (hfresh : freshRun init ops = true) :
    (run init ops).teams.Pairwise (fun a b => a.id ≠ b.id) ∧
    (run init ops).eliminated.Pairwise (fun a b => a.id ≠ b.id) :=
  ⟨pairwise_of_ids_nodup (uniqueActive_run ops init (by simp [init, ids]) hfresh),
   pairwise_of_ids_nodup (uniqueElim_run ops init (by simp [init, ids]))⟩

theorem C18_ids_unique_in_each_list_witness :
    freshRun init staleUndoOps = true ∧
    (run init staleUndoOps).teams.Pairwise (fun a b => a.id ≠ b.id) ∧
    (run init staleUndoOps).eliminated.Pairwise (fun a b => a.id ≠ b.id) :=
  ⟨by decide, C18_ids_unique_in_each_list staleUndoOps (by decide)⟩

/-! ## Teams are moved between the lists -/

theorem perm_cons_filter_ne {l : List Team} {team : Team} (h : (ids l).Nodup)
    (hmem : team ∈ l) : List.Perm (team :: l.filter (fun t => t.id != team.id)) l := by
  induction l with
  | nil => cases hmem
  | cons a l ih =>
    simp only [ids, List.map_cons, List.nodup_cons, List.mem_map, not_exists, not_and] at h
    obtain ⟨hnot, hnd⟩ := h
    rcases List.mem_cons.mp hmem with rfl | hl
    · have hself : (team :: l).filter (fun t => t.id != team.id) = l := by
        rw [List.filter_cons]
        simp only [bne_self_eq_false, Bool.false_eq_true, if_false]
        apply filter_ne_self
        intro e he
        exact hnot e he
      rw [hself]
    · have hne : a.id ≠ team.id := fun heq => hnot team hl heq.symm
      have hkeep : (a :: l).filter (fun t => t.id != team.id)
          = a :: l.filter (fun t => t.id != team.id) := by
        rw [List.filter_cons]
        simp [hne]
      rw [hkeep]
      exact (List.Perm.swap a team _).trans ((ih hnd hl).cons a)

theorem total_eq_length_pairs (s : State) : total s = (pairs s).length := by
  simp [total, pairs]

theorem pairs_of_perm {s s' : State}
    (h : List.Perm (s'.teams ++ s'.eliminated) (s.teams ++ s.eliminated)) :
    List.Perm (pairs s') (pairs s) :=
  h.map _

theorem pairs_changeScore (s : State) (id : String) (delta : Int) :
    pairs (changeScore s id delta) = pairs s := by
  simp only [pairs, changeScore, List.map_append, List.map_map]
  congr 1
  apply List.map_congr_left
  intro t _
  simp only [Function.comp]
  split <;> rfl

theorem pairs_eliminateTeam {s : State} (id : String) (now : Nat) (hA : (ids s.teams).Nodup)
    (hD : DisjointIds s) : List.Perm (pairs (eliminateTeam s id now)) (pairs s) := by
  cases hfind : s.teams.find? (fun t => t.id == id) with
  | none =>
    have : eliminateTeam s id now = s := by unfold eliminateTeam; rw [hfind]
    rw [this]
  | some team =>
    obtain ⟨hmem, hid⟩ := find_id_spec hfind
    have hel : ∀ e ∈ s.eliminated, e.id ≠ id := fun e he heq => hD team hmem e he (hid.trans heq.symm)
    rw [eliminateTeam_effect now hfind hel]
    apply pairs_of_perm
    have hp := perm_cons_filter_ne hA hmem
    rw [hid] at hp
    have h1 : List.Perm (s.teams.filter (fun t => t.id != id) ++ (s.eliminated ++ [team]))
        ((team :: s.teams.filter (fun t => t.id != id)) ++ s.eliminated) := by
      rw [← List.append_assoc]
      exact List.perm_append_comm.trans (by simp [List.perm_middle])
    exact h1.trans (hp.append_right _)

theorem pairs_move_back {s : State} {team : Team} (hE : (ids s.eliminated).Nodup)
    (hmem : team ∈ s.eliminated) :
    List.Perm ((s.teams ++ [team]) ++ s.eliminated.filter (fun t => t.id != team.id))
      (s.teams ++ s.eliminated) := by
  rw [List.append_assoc]
  exact (perm_cons_filter_ne hE hmem).append_left _

theorem pairs_undoElimination {s : State} (hslot : SlotBacked s) (hE : (ids s.eliminated).Nodup)
    (hD : DisjointIds s) : List.Perm (pairs (undoElimination s)) (pairs s) := by
  cases hl : s.lastEliminated with
  | none =>
    have : undoElimination s = s := by unfold undoElimination; rw [hl]
    rw [this]
  | some u =>
    have hmem := hslot u hl
    have hany : s.teams.any (fun p => p.id == u.id) = false :=
      any_id_false (fun t ht => hD t ht u hmem)
    rw [undoElimination_of_slot hl]
    apply pairs_of_perm
    simp only [hany, Bool.false_eq_true, if_false]
    exact pairs_move_back hE hmem

theorem pairs_restoreEliminated {s : State} (id : String) (hE : (ids s.eliminated).Nodup)
    (hD : DisjointIds s) : List.Perm (pairs (restoreEliminated s id)) (pairs s) := by
  cases hfind : s.eliminated.find? (fun t => t.id == id) with
  | none =>
    have : restoreEliminated s id = s := by unfold restoreEliminated; rw [hfind]
    rw [this]
  | some team =>
    obtain ⟨hmem, hid⟩ := find_id_spec hfind
    have hany : s.teams.any (fun p => p.id == team.id) = false :=
      any_id_false (fun t ht => hD t ht team hmem)
    apply pairs_of_perm
    simp only [restoreEliminated, hfind, hany, Bool.false_eq_true, if_false]
    have := pairs_move_back (s := s) hE hmem
    rwa [hid] at this

theorem pairs_undoTimeout (s : State) : pairs (undoTimeout s) = pairs s := by
  unfold undoTimeout
  split <;> rfl

theorem ids_nodup_of_pairwise {l : List Team} (h : l.Pairwise (fun a b => a.id ≠ b.id)) :
    (ids l).Nodup :=
  List.pairwise_map.mpr h

theorem total_addTeam (s : State) (now : Nat) (rnd : String) :
    (trim s.name = "" → addTeam s now rnd = s) ∧
    (trim s.name ≠ "" → total (addTeam s now rnd) = total s + 1) := by
  constructor
  · intro h; simp [addTeam, h]
  · intro h
    simp only [addTeam, h, if_false, total, List.length_append, List.length_singleton]
    omega

/-- C16: in every state reached by a run of events from a first render
(undo slot empty, any two lists loaded) in which ids are unique within each
list and no id is in both lists, AdjustScore, Eliminate,
UndoLastElimination, RestoreEliminated and the deadline expiry leave the
collection of (id, name) pairs over both lists unchanged, hence the number
of teams; an event that increases the number is an AddTeam and adds exactly
one, an event that decreases it is a confirmed ResetAll, which leaves no
team. -/
theorem C16_teams_moved_not_copied (s0 : State) (hstart : s0.lastEliminated = none)
    (ops : List Op) (s : State) (hreach : s = run s0 ops)
    (hactive : s.teams.Pairwise (fun a b => a.id ≠ b.id))
    (helim : s.eliminated.Pairwise (fun a b => a.id ≠ b.id))
    (hdisj : ∀ t ∈ s.teams, ∀ e ∈ s.eliminated, t.id ≠ e.id) :
    (∀ id delta, List.Perm (pairs (changeScore s id delta)) (pairs s)) ∧
    (∀ id now, List.Perm (pairs (eliminateTeam s id now)) (pairs s)) ∧
    List.Perm (pairs (undoElimination s)) (pairs s) ∧
    (∀ id, List.Perm (pairs (restoreEliminated s id)) (pairs s)) ∧
    List.Perm (pairs (undoTimeout s)) (pairs s) ∧
    (∀ id delta, total (changeScore s id delta) = total s) ∧
    (∀ id now, total (eliminateTeam s id now) = total s) ∧
    total (undoElimination s) = total s ∧
    (∀ id, total (restoreEliminated s id) = total s) ∧
    total (undoTimeout s) = total s ∧
    (∀ name now rnd, trim name ≠ "" → total (addTeamNamed s name now rnd) = total s + 1) ∧
    total (resetAll s true) = 0 ∧
    (∀ op : Op,
      (total s < total (step s op) →
        (∃ now rnd, op = .addTeam now rnd) ∧ total (step s op) = total s + 1) ∧
      (total (step s op) < total s → op = .resetAll true)) := by
  have hslot : SlotBacked s := by
    rw [hreach]
    refine slotBacked_run ops s0 ?_
    intro t ht
    rw [hstart] at ht
    cases ht
  have hA := ids_nodup_of_pairwise hactive
  have hE := ids_nodup_of_pairwise helim
  have p1 : ∀ id delta, List.Perm (pairs (changeScore s id delta)) (pairs s) :=
    fun id delta => by rw [pairs_changeScore]
  have p2 := fun id now => pairs_eliminateTeam (s := s) id now hA hdisj
  have p3 := pairs_undoElimination hslot hE hdisj
  have p4 := fun id => pairs_restoreEliminated (s := s) id hE hdisj
  have p5 : List.Perm (pairs (undoTimeout s)) (pairs s) := by rw [pairs_undoTimeout]
  have t1 : ∀ id delta, total (changeScore s id delta) = total s := fun id delta => by
    rw [total_eq_length_pairs, total_eq_length_pairs]; exact (p1 id delta).length_eq
  have t2 : ∀ id now, total (eliminateTeam s id now) = total s := fun id now => by
    rw [total_eq_length_pairs, total_eq_length_pairs]; exact (p2 id now).length_eq
  have t3 : total (undoElimination s) = total s := by
    rw [total_eq_length_pairs, total_eq_length_pairs]; exact p3.length_eq
  have t4 : ∀ id, total (restoreEliminated s id) = total s := fun id => by
    rw [total_eq_length_pairs, total_eq_length_pairs]; exact (p4 id).length_eq
  have t5 : total (undoTimeout s) = total s := by
    rw [total_eq_length_pairs, total_eq_length_pairs]; exact p5.length_eq
  refine ⟨p1, p2, p3, p4, p5, t1, t2, t3, t4, t5, ?_, rfl, ?_⟩
  · intro name now rnd hname
    exact (total_addTeam (setName s name) now rnd).2 hname
  · intro op
    cases op with
    | setName v => exact ⟨fun h => absurd h (lt_irrefl _), fun h => absurd h (lt_irrefl _)⟩
    | addTeam now rnd =>
      by_cases hb : trim s.name = ""
      · have : step s (.addTeam now rnd) = s := (total_addTeam s now rnd).1 hb
        rw [this]
        exact ⟨fun h => absurd h (lt_irrefl _), fun h => absurd h (lt_irrefl _)⟩
      · have : total (step s (.addTeam now rnd)) = total s + 1 := (total_addTeam s now rnd).2 hb
        rw [this]
        exact ⟨fun _ => ⟨⟨now, rnd, rfl⟩, rfl⟩, fun h => by omega⟩
    | changeScore id delta =>
      have : total (step s (.changeScore id delta)) = total s := t1 id delta
      rw [this]
      exact ⟨fun h => absurd h (lt_irrefl _), fun h => absurd h (lt_irrefl _)⟩
    | eliminateTeam id now =>
      have : total (step s (.eliminateTeam id now)) = total s := t2 id now
      rw [this]
      exact ⟨fun h => absurd h (lt_irrefl _), fun h => absurd h (lt_irrefl _)⟩
    | undoElimination =>
      have : total (step s .undoElimination) = total s := t3
      rw [this]
      exact ⟨fun h => absurd h (lt_irrefl _), fun h => absurd h (lt_irrefl _)⟩
    | restoreEliminated id =>
      have : total (step s (.restoreEliminated id)) = total s := t4 id
      rw [this]
      exact ⟨fun h => absurd h (lt_irrefl _), fun h => absurd h (lt_irrefl _)⟩
    | resetAll ok =>
      cases ok
      · exact ⟨fun h => absurd h (lt_irrefl _), fun h => absurd h (lt_irrefl _)⟩
      · have : total (step s (.resetAll true)) = 0 := rfl
        rw [this]
        exact ⟨fun h => absurd h (Nat.not_lt_zero _), fun _ => rfl⟩
    | undoTimeout =>
      have : total (step s .undoTimeout) = total s := t5
      rw [this]
      exact ⟨fun h => absurd h (lt_irrefl _), fun h => absurd h (lt_irrefl _)⟩

theorem C16_teams_moved_not_copied_witness :
    pairs (run init sampleOps) = [("rthijk", "Beta"), ("rsabcd", "Alpha")] ∧
    pairs (undoElimination (run init sampleOps)) = [("rthijk", "Beta"), ("rsabcd", "Alpha")] ∧
    List.Perm (pairs (eliminateTeam (run init sampleOps) "rthijk" 3000))
      (pairs (run init sampleOps)) ∧
    total (restoreEliminated (run init sampleOps) "rsabcd") = total (run init sampleOps) :=
  have h := C16_teams_moved_not_copied init rfl sampleOps (run init sampleOps) rfl
    (by decide) (by decide) (by decide)
  ⟨by decide, by decide, h.2.1 "rthijk" 3000, h.2.2.2.2.2.2.2.2.1 "rsabcd"⟩

theorem restoreEliminated_absent {s : State} {id : String}
    (h : ∀ e ∈ s.eliminated, e.id ≠ id) : restoreEliminated s id = s := by
  have hnone : s.eliminated.find? (fun t => t.id == id) = none := by
    rw [List.find?_eq_none]
    intro t ht
    simpa using h t ht
  unfold restoreEliminated
  rw [hnone]

theorem find_id_of_nodup {l : List Team} {team : Team} (h : (ids l).Nodup) (hmem : team ∈ l) :
    l.find? (fun t => t.id == team.id) = some team := by
  obtain ⟨found, hfound⟩ := find_id_of_mem ⟨team, hmem, rfl⟩
  obtain ⟨hfmem, hfid⟩ := find_id_spec hfound
  have : found = team := List.inj_on_of_nodup_map h hfmem hmem hfid
  rw [hfound, this]

/-- C17: RestoreEliminated(id) changes nothing (lists, undo slot, deadline)
when no eliminated team has the id. Otherwise, with T the first eliminated
team with the id, the teams with the id leave the eliminated list, the
others stay in their order, and T is appended to the active list unless an
active team already has the id. In a state reached from the empty state T
is the only eliminated team with the id, so exactly T is removed. -/
theorem C17_restore_post (s : State) (id : String) :
    ((∀ e ∈ s.eliminated, e.id ≠ id) → restoreEliminated s id = s) ∧
    (∀ T : Team, s.eliminated.find? (fun t => t.id == id) = some T →
      (restoreEliminated s id).eliminated = s.eliminated.filter (fun t => t.id != id) ∧
      T ∉ (restoreEliminated s id).eliminated ∧
      (∀ e ∈ s.eliminated, e.id ≠ id → e ∈ (restoreEliminated s id).eliminated) ∧
      List.Sublist (restoreEliminated s id).eliminated s.eliminated ∧
      ((∀ t ∈ s.teams, t.id ≠ id) → (restoreEliminated s id).teams = s.teams ++ [T]) ∧
      ((∃ t ∈ s.teams, t.id = id) → (restoreEliminated s id).teams = s.teams)) ∧
    (∀ ops : List Op, s = run init ops → ∀ T ∈ s.eliminated, T.id = id →
      s.eliminated.find? (fun t => t.id == id) = some T ∧
      (∀ e ∈ s.eliminated, e ≠ T → e ∈ (restoreEliminated s id).eliminated)) := by
  refine ⟨restoreEliminated_absent, ?_, ?_⟩
  · intro T hfind
    obtain ⟨_, hid⟩ := find_id_spec hfind
    have hel : (restoreEliminated s id).eliminated
        = s.eliminated.filter (fun t => t.id != id) := by
      simp only [restoreEliminated, hfind]
    have hteams : (restoreEliminated s id).teams
        = if s.teams.any (fun p => p.id == T.id) then s.teams else s.teams ++ [T] := by
      simp only [restoreEliminated, hfind]
    rw [hel, hteams, hid]
    refine ⟨rfl, ?_, ?_, List.filter_sublist _, ?_, ?_⟩
    · simp [List.mem_filter, hid]
    · intro e he hne
      simp [List.mem_filter, he, hne]
    · intro h
      simp only [any_id_false h, Bool.false_eq_true, if_false]
    · rintro ⟨t, ht, htid⟩
      have : s.teams.any (fun p => p.id == id) = true :=
        List.any_eq_true.mpr ⟨t, ht, by simp [htid]⟩
      simp only [this, if_true]
  · intro ops hreach T hT hid
    have hE : (ids s.eliminated).Nodup := by
      rw [hreach]; exact uniqueElim_run ops init (by simp [init, ids])
    have hfind : s.eliminated.find? (fun t => t.id == id) = some T := by
      rw [← hid]; exact find_id_of_nodup hE hT
    refine ⟨hfind, ?_⟩
    intro e he hne
    have hne_id : e.id ≠ id := by
      intro heq
      exact hne (List.inj_on_of_nodup_map hE he hT (heq.trans hid.symm))
    simp [restoreEliminated, hfind, List.mem_filter, he, hne_id]

theorem C17_restore_post_witness :
    restoreEliminated (run init sampleOps) "rthijk" = run init sampleOps ∧
    (restoreEliminated (run init staleUndoOps.dropLast) "rsabcd").eliminated
      = [⟨"rthijk", "Beta", 0⟩] ∧
    (restoreEliminated (run init staleUndoOps.dropLast) "rsabcd").teams
      = [⟨"rsabcd", "Alpha", 0⟩] ∧
    ((run init staleUndoOps.dropLast).eliminated.find? (fun t => t.id == "rsabcd")
      = some ⟨"rsabcd", "Alpha", 0⟩) :=
  have h := (C17_restore_post (run init staleUndoOps.dropLast) "rsabcd").2.1
    ⟨"rsabcd", "Alpha", 0⟩ (by decide)
  ⟨(C17_restore_post (run init sampleOps) "rthijk").1 (by decide),
   h.1.trans (by decide), (h.2.2.2.2.1 (by decide)).trans (by decide),
   ((C17_restore_post (run init staleUndoOps.dropLast) "rsabcd").2.2 staleUndoOps.dropLast rfl
      ⟨"rsabcd", "Alpha", 0⟩ (by decide) rfl).1⟩

/-! ## Loading -/

theorem asTeam_teamJson (t : Team) : asTeam (teamJson t) = some t := by
  simp [asTeam, teamJson, List.lookup]

theorem asTeamList_teamJson (l : List Team) : asTeamList (l.map teamJson) = some l := by
  induction l with
  | nil => rfl
  | cons a l ih => simp only [List.map_cons, asTeamList, asTeam_teamJson, ih]

/-- C19 as stated fails: when the stored text is "null", "5" or "[null]"
the parse succeeds and the initial collection is the parsed value, which is
not a list of teams. -/
theorem C19_loading_counterexample :
    asTeams (loadCollection (.text "null" (some .null))) = none ∧
    asTeams (loadCollection (.text "5" (some (.num 5)))) = none ∧
    asTeams (loadCollection (.text "[null]" (some (.arr [.null])))) = none := by
  refine ⟨rfl, rfl, rfl⟩

/-- C19 (amended): when reading the key throws, the key is absent, the
stored text is empty or cannot be parsed, the initial collection is the
empty list; when the stored text parses to an array of team records, the
initial collection is that list of teams. -/
theorem C19_loading (raw : String) (l : List Team) :
    asTeams (loadCollection .getItemThrows) = some [] ∧
    asTeams (loadCollection .absent) = some [] ∧
    (∀ parsed, asTeams (loadCollection (.text "" parsed)) = some []) ∧
    asTeams (loadCollection (.text raw none)) = some [] ∧
    (raw ≠ "" → asTeams (loadCollection (.text raw (some (.arr (l.map teamJson))))) = some l) := by
  refine ⟨rfl, rfl, fun _ => rfl, ?_, ?_⟩
  · by_cases h : raw = ""
    · simp only [loadCollection, h, if_true]; rfl
    · simp only [loadCollection, h, if_false]; rfl
  · intro h
    simp only [loadCollection, h, if_false, asTeams]
    exact asTeamList_teamJson l

theorem C19_loading_witness :
    asTeams (loadCollection (.text "not json" none)) = some [] ∧
    asTeams (loadCollection (.text "[\x7b\"id\":\"rsabcd\",\"name\":\"Alpha\",\"score\":5\x7d]"
      (some (.arr [.obj [("id", .str "rsabcd"), ("name", .str "Alpha"), ("score", .num 5)]]))))
      = some [⟨"rsabcd", "Alpha", 5⟩] :=
  ⟨(C19_loading "not json" []).2.2.2.1,
   (C19_loading "[\x7b\"id\":\"rsabcd\",\"name\":\"Alpha\",\"score\":5\x7d]" [⟨"rsabcd", "Alpha", 5⟩]).2.2.2.2
     (by decide)⟩

end ScoreTracker
